import Mathlib

/-!
# Verification of the concurrent download orchestration layer

Shallow embedding of `src/download/ConcurrentDownloadService.ts` (the
`ConcurrentDownloadService` class, the `DownloadService` class and the
`Semaphore` class) and of `src/browser/BrowserPool.ts`.

Conventions of the embedding:
* TypeScript optional fields become `Option`; optional booleans that are
  only ever tested for truthiness become `Bool` with default `false`.
* The cooperative async scheduler is modelled as a small-step state machine
  (`SemState`/`semStep`): an `acq` event is one synchronous call of
  `Semaphore.acquire`, a `fin i ok` event is the completion (fulfilment or
  rejection) of the running task `i`, including the synchronous `finally`
  block of `execute` (decrement + dequeue + start of the next task).
  `Promise.all`'s index-aligned result assembly is modelled by the
  `results` slot array, written at completion time.
* External effects (filesystem probe, DOM extraction, HTTP response,
  browser-context acquisition) are oracles passed in as parameters;
  everything that is code of the repository (branching, URL building,
  retry loop, error wrapping, result construction) is embedded directly.
* Traces of effect events (`AEv`, `Ev`, `SEv`) record which effectful
  steps a call performed, so that claims about "no fetch happens" or
  "release is called exactly once" are statable.
-/

namespace VscoDownloader

/-! ## Data model (src/types, as used by the download services) -/

/-- Manifest image metadata (`ImageData`); only fields the download
services read are modelled. -/
structure ImageData where
  image_author : Option String := none
  vsco_url : Option String := none
  author : Option String := none
  authorUrl : Option String := none
  width : Option Nat := none
  height : Option Nat := none
  deriving Repr, DecidableEq

/-- A work item `[photoId, imageData]` (`ImageEntry`). -/
abbrev ImageEntry := String × ImageData

/-- Default entry used to model out-of-range list access. -/
def dfltEntry : ImageEntry := ("", {})

/-- Metadata extracted from the VSCO page by `extractVscoImageMetadata`. -/
structure VscoMeta where
  directImageUrl : String
  uploadDate : Option String := none
  availableSizes : Option (List String) := none
  srcset : Option String := none
  originalWidth : Option Nat := none
  originalHeight : Option Nat := none
  deriving Repr, DecidableEq

/-- `DownloadResult` (src/types): outcome of one work item. -/
structure DownloadResult where
  success : Bool
  photoId : String
  filepath : Option String := none
  filename : Option String := none
  size : Option Nat := none
  skipped : Bool := false
  dryRun : Bool := false
  error : Option String := none
  author : Option String := none
  authorUrl : Option String := none
  imageUrl : Option String := none
  width : Option Nat := none
  height : Option Nat := none
  uploadDate : Option String := none
  availableSizes : Option (List String) := none
  srcset : Option String := none
  originalWidth : Option Nat := none
  originalHeight : Option Nat := none
  deriving Repr, DecidableEq

/-- Default result used to model out-of-range list access. -/
def dfltResult : DownloadResult := { success := false, photoId := "" }

/-! ## Semaphore scheduler model

State of one `Semaphore` instance (`maxConcurrent`, `currentCount`,
`queue`) together with ghost instrumentation: `nextAcquire` counts the
`acquire` calls made so far (`processBatch` issues them in input order,
index `0, 1, ...`), `running` is the set of tasks currently holding a
slot, `enqueued` logs every task that was ever pushed onto the FIFO
queue, `started` logs the order in which tasks were granted a slot, and
`results` models the `Promise.all` result slots (slot `i` is written when
task `i` settles). -/

structure SemState (R : Type) where
  maxConcurrent : Nat
  currentCount : Nat
  queue : List Nat
  nextAcquire : Nat
  running : List Nat
  enqueued : List Nat
  started : List Nat
  results : List (Option R)
  deriving Repr, DecidableEq

/-- Scheduler events: `acq` is the next (synchronous) `acquire` call;
`fin i ok` is the settlement of running task `i` (`ok := false` models a
rejected/thrown task) together with the `finally` block of `execute`. -/
inductive SemEvent where
  | acq : SemEvent
  | fin : Nat → Bool → SemEvent
  deriving Repr, DecidableEq

/-- Initial semaphore state for `n` tasks with limit `k`
(`new Semaphore(k)` plus the `n` unresolved `Promise.all` slots). -/
def initSem (R : Type) (k n : Nat) : SemState R :=
  { maxConcurrent := k, currentCount := 0, queue := [], nextAcquire := 0,
    running := [], enqueued := [], started := [], results := List.replicate n none }

/-- One scheduler step. `f i` is the value task `i` settles with
(`downloadSingleImage` never rejects, so every settlement fulfils its
`Promise.all` slot). Mirrors `Semaphore.acquire`: a fresh `acquire`
either runs `execute` at once (`currentCount < maxConcurrent`) or pushes
onto the queue; a completion decrements `currentCount` and, in the same
`finally` block, shifts and starts the head of the queue (whose
`execute` re-increments the counter) — identically for fulfilled and
rejected tasks. -/
def semStep {R : Type} (f : Nat → R) (s : SemState R) : SemEvent → Option (SemState R)
  | .acq =>
    if s.nextAcquire < s.results.length then
      if s.currentCount < s.maxConcurrent then
        some { s with currentCount := s.currentCount + 1,
                      running := s.nextAcquire :: s.running,
                      started := s.started ++ [s.nextAcquire],
                      nextAcquire := s.nextAcquire + 1 }
      else
        some { s with queue := s.queue ++ [s.nextAcquire],
                      enqueued := s.enqueued ++ [s.nextAcquire],
                      nextAcquire := s.nextAcquire + 1 }
    else none
  | .fin i _ok =>
    if i ∈ s.running then
      match s.queue with
      | [] =>
        some { s with currentCount := s.currentCount - 1,
                      running := s.running.erase i,
                      results := s.results.set i (some (f i)) }
      | j :: rest =>
        some { s with running := j :: s.running.erase i,
                      started := s.started ++ [j],
                      queue := rest,
                      results := s.results.set i (some (f i)) }
    else none

/-- Run a list of scheduler events. -/
def semRun {R : Type} (f : Nat → R) (s : SemState R) : List SemEvent → Option (SemState R)
  | [] => some s
  | e :: es =>
    match semStep f s e with
    | none => none
    | some s' => semRun f s' es

/-! ## Scheduler invariants (claims C1, C2, C3) -/

/-- Inductive invariant of the semaphore scheduler.  `count_run` states
that `currentCount` counts exactly the tasks currently holding a slot
(so the `ℕ`-valued counter never under- or overflows and `0 ≤
currentCount` is meaningful), `count_le` is the upper bound, the
remaining fields relate the FIFO queue and the ghost logs. -/
structure SemInv {R : Type} (f : Nat → R) (s : SemState R) : Prop where
  count_run : s.currentCount = s.running.length
  count_le : s.currentCount ≤ s.maxConcurrent
  run_nodup : s.running.Nodup
  queue_sorted : s.queue.Pairwise (· < ·)
  queue_run_disj : ∀ x ∈ s.queue, x ∉ s.running
  lt_next : ∀ x, (x ∈ s.queue ∨ x ∈ s.running ∨ x ∈ s.enqueued ∨ x ∈ s.started) →
    x < s.nextAcquire
  queue_enq : ∀ x ∈ s.queue, x ∈ s.enqueued
  enq_split : ∀ x ∈ s.enqueued, x ∈ s.queue ∨ x ∈ s.started
  started_queue_disj : ∀ x ∈ s.started, x ∉ s.queue
  fifo_bound : ∀ x ∈ s.started, x ∈ s.enqueued → ∀ y ∈ s.queue, x < y
  start_log : (s.started.filter (fun x => decide (x ∈ s.enqueued))).Pairwise (· < ·)
  run_started : ∀ x ∈ s.running, x ∈ s.started
  next_le : s.nextAcquire ≤ s.results.length
  res_get : ∀ i, i < s.results.length →
    s.results[i]? = some (if i ∈ s.started ∧ i ∉ s.running then some (f i) else none)
  acq_split : ∀ x, x < s.nextAcquire → x ∈ s.queue ∨ x ∈ s.running ∨ x ∈ s.started

theorem semInv_init {R : Type} (f : Nat → R) (k n : Nat) : SemInv f (initSem R k n) := by
  refine ⟨rfl, Nat.zero_le _, List.nodup_nil, List.Pairwise.nil, ?_, ?_, ?_, ?_, ?_, ?_,
    ?_, ?_, ?_, ?_, ?_⟩
  · intro x hx; simp [initSem] at hx
  · intro x hx; simp [initSem] at hx
  · intro x hx; simp [initSem] at hx
  · intro x hx; simp [initSem] at hx
  · intro x hx; simp [initSem] at hx
  · intro x hx hxe y hy; simp [initSem] at hx
  · simp [initSem]
  · intro x hx; simp [initSem] at hx
  · simp [initSem]
  · intro i hi
    simp only [initSem, List.length_replicate] at hi
    simp [initSem, List.getElem?_replicate, hi]
  · intro x hx; simp [initSem] at hx

theorem semInv_step {R : Type} {f : Nat → R} {s s' : SemState R} {e : SemEvent}
    (hinv : SemInv f s) (hstep : semStep f s e = some s') : SemInv f s' := by
  obtain ⟨hcr, hcl, hrn, hqs, hqr, hlt, hqe, hes, hsq, hfb, hsl, hrs, hnl, hrg, hacq⟩ := hinv
  cases e with
  | acq =>
    simp only [semStep] at hstep
    split at hstep
    case isFalse => exact absurd hstep (by simp)
    case isTrue hn =>
      split at hstep
      case isTrue hc =>
        -- a slot is free: `execute` runs at once
        injection hstep with h
        subst h
        set t := s.nextAcquire with ht
        have htnotrun : t ∉ s.running := fun hx => absurd (hlt t (.inr (.inl hx))) (by omega)
        have htnotq : t ∉ s.queue := fun hx => absurd (hlt t (.inl hx)) (by omega)
        have htnotenq : t ∉ s.enqueued := fun hx =>
          absurd (hlt t (.inr (.inr (.inl hx)))) (by omega)
        have htnotst : t ∉ s.started := fun hx =>
          absurd (hlt t (.inr (.inr (.inr hx)))) (by omega)
        refine ⟨?_, ?_, ?_, hqs, ?_, ?_, hqe, ?_, ?_, ?_, ?_, ?_, ?_, ?_, ?_⟩ <;> dsimp only
        · simp [hcr]
        · omega
        · exact List.nodup_cons.mpr ⟨htnotrun, hrn⟩
        · intro x hx
          simp only [List.mem_cons, not_or]
          exact ⟨fun hxe => htnotq (hxe ▸ hx), hqr x hx⟩
        · intro x hx
          rcases hx with hx | hx | hx | hx
          · exact lt_trans (hlt x (.inl hx)) (Nat.lt_succ_self _)
          · rcases List.mem_cons.mp hx with rfl | hx
            · omega
            · exact lt_trans (hlt x (.inr (.inl hx))) (Nat.lt_succ_self _)
          · exact lt_trans (hlt x (.inr (.inr (.inl hx)))) (Nat.lt_succ_self _)
          · rcases List.mem_append.mp hx with hx | hx
            · exact lt_trans (hlt x (.inr (.inr (.inr hx)))) (Nat.lt_succ_self _)
            · simp only [List.mem_singleton] at hx; omega
        · intro x hx
          rcases hes x hx with h | h
          · exact .inl h
          · exact .inr (List.mem_append.mpr (.inl h))
        · intro x hx
          rcases List.mem_append.mp hx with hx | hx
          · exact hsq x hx
          · simp only [List.mem_singleton] at hx
            exact hx ▸ htnotq
        · intro x hx hxe y hy
          rcases List.mem_append.mp hx with hx | hx
          · exact hfb x hx hxe y hy
          · simp only [List.mem_singleton] at hx
            exact absurd (hx ▸ hxe) htnotenq
        · rw [List.filter_append]
          have : List.filter (fun x => decide (x ∈ s.enqueued)) [t] = [] := by
            simp [htnotenq]
          rw [this, List.append_nil]
          exact hsl
        · intro x hx
          rcases List.mem_cons.mp hx with rfl | hx
          · exact List.mem_append.mpr (.inr (by simp))
          · exact List.mem_append.mpr (.inl (hrs x hx))
        · omega
        · intro i hi
          rw [hrg i hi]
          by_cases hit : i = t
          · subst hit
            have h1 : t ∈ t :: s.running := by simp
            simp [htnotst, h1]
          · have h1 : (i ∈ s.started ++ [t]) ↔ i ∈ s.started := by simp [hit]
            have h2 : (i ∈ t :: s.running) ↔ i ∈ s.running := by simp [hit]
            simp only [h1, h2]
        · intro x hx
          by_cases hxt : x = t
          · exact .inr (.inl (by simp [hxt]))
          · have hx' : x < t := by omega
            rcases hacq x hx' with h | h | h
            · exact .inl h
            · exact .inr (.inl (by simp [h]))
            · exact .inr (.inr (List.mem_append.mpr (.inl h)))
      case isFalse hc =>
        -- at capacity: the request is queued (FIFO)
        injection hstep with h
        subst h
        set t := s.nextAcquire with ht
        have htnotrun : t ∉ s.running := fun hx => absurd (hlt t (.inr (.inl hx))) (by omega)
        have htnotq : t ∉ s.queue := fun hx => absurd (hlt t (.inl hx)) (by omega)
        have htnotenq : t ∉ s.enqueued := fun hx =>
          absurd (hlt t (.inr (.inr (.inl hx)))) (by omega)
        have htnotst : t ∉ s.started := fun hx =>
          absurd (hlt t (.inr (.inr (.inr hx)))) (by omega)
        refine ⟨hcr, hcl, hrn, ?_, ?_, ?_, ?_, ?_, ?_, ?_, ?_, hrs, ?_, ?_, ?_⟩ <;> dsimp only
        · rw [List.pairwise_append]
          refine ⟨hqs, List.pairwise_singleton _ _, ?_⟩
          intro a ha b hb
          simp only [List.mem_singleton] at hb
          exact hb ▸ hlt a (.inl ha)
        · intro x hx
          rcases List.mem_append.mp hx with hx | hx
          · exact hqr x hx
          · simp only [List.mem_singleton] at hx
            exact hx ▸ htnotrun
        · intro x hx
          rcases hx with hx | hx | hx | hx
          · rcases List.mem_append.mp hx with hx | hx
            · exact lt_trans (hlt x (.inl hx)) (Nat.lt_succ_self _)
            · simp only [List.mem_singleton] at hx; omega
          · exact lt_trans (hlt x (.inr (.inl hx))) (Nat.lt_succ_self _)
          · rcases List.mem_append.mp hx with hx | hx
            · exact lt_trans (hlt x (.inr (.inr (.inl hx)))) (Nat.lt_succ_self _)
            · simp only [List.mem_singleton] at hx; omega
          · exact lt_trans (hlt x (.inr (.inr (.inr hx)))) (Nat.lt_succ_self _)
        · intro x hx
          rcases List.mem_append.mp hx with hx | hx
          · exact List.mem_append.mpr (.inl (hqe x hx))
          · exact List.mem_append.mpr (.inr hx)
        · intro x hx
          rcases List.mem_append.mp hx with hx | hx
          · rcases hes x hx with h | h
            · exact .inl (List.mem_append.mpr (.inl h))
            · exact .inr h
          · exact .inl (List.mem_append.mpr (.inr hx))
        · intro x hx
          have hxlt : x < t := hlt x (.inr (.inr (.inr hx)))
          simp only [List.mem_append, List.mem_singleton, not_or]
          exact ⟨hsq x hx, by omega⟩
        · intro x hx hxe y hy
          have hxlt : x < t := hlt x (.inr (.inr (.inr hx)))
          have hxe' : x ∈ s.enqueued := by
            rcases List.mem_append.mp hxe with h | h
            · exact h
            · simp only [List.mem_singleton] at h; omega
          rcases List.mem_append.mp hy with hy | hy
          · exact hfb x hx hxe' y hy
          · simp only [List.mem_singleton] at hy; omega
        · have : List.filter (fun x => decide (x ∈ s.enqueued ++ [t])) s.started =
              List.filter (fun x => decide (x ∈ s.enqueued)) s.started := by
            apply List.filter_congr
            intro x hx
            have hxlt : x < t := hlt x (.inr (.inr (.inr hx)))
            have hxne : ¬x = t := by omega
            simp only [List.mem_append, List.mem_singleton, decide_eq_decide]
            exact or_iff_left hxne
          rw [this]
          exact hsl
        · omega
        · exact hrg
        · intro x hx
          by_cases hxt : x = t
          · exact .inl (List.mem_append.mpr (.inr (by simp [hxt])))
          · have hx' : x < t := by omega
            rcases hacq x hx' with h | h | h
            · exact .inl (List.mem_append.mpr (.inl h))
            · exact .inr (.inl h)
            · exact .inr (.inr h)
  | fin i _ok =>
    simp only [semStep] at hstep
    split at hstep
    case isFalse => exact absurd hstep (by simp)
    case isTrue hi =>
      have hilt : i < s.nextAcquire := hlt i (.inr (.inl hi))
      have hilen : i < s.results.length := lt_of_lt_of_le hilt hnl
      have hist : i ∈ s.started := hrs i hi
      rcases hq : s.queue with _ | ⟨jq, rest⟩
      all_goals rw [hq] at hstep
      -- queue empty: decrement only
      · injection hstep with h
        subst h
        refine ⟨?_, ?_, ?_, List.Pairwise.nil, ?_, ?_, ?_, ?_, ?_, ?_, hsl, ?_, ?_, ?_, ?_⟩ <;>
          dsimp only
        · rw [List.length_erase_of_mem hi]; omega
        · omega
        · exact hrn.erase i
        · intro x hx; simp at hx
        · intro x hx
          rcases hx with hx | hx | hx | hx
          · simp at hx
          · exact hlt x (.inr (.inl (List.mem_of_mem_erase hx)))
          · exact hlt x (.inr (.inr (.inl hx)))
          · exact hlt x (.inr (.inr (.inr hx)))
        · intro x hx; simp at hx
        · intro x hx
          rcases hes x hx with h | h
          · rw [hq] at h; simp at h
          · exact .inr h
        · intro x hx; simp
        · intro x hx hxe y hy; simp at hy
        · intro x hx
          exact hrs x (List.mem_of_mem_erase hx)
        · simp only [List.length_set]; omega
        · intro j hj
          simp only [List.length_set] at hj
          by_cases hji : j = i
          · rw [hji, List.getElem?_set_self (by omega)]
            have h1 : i ∉ s.running.erase i := hrn.not_mem_erase
            simp [hist, h1]
          · rw [List.getElem?_set_ne (Ne.symm hji), hrg j hj]
            have h2 : (j ∈ s.running.erase i) ↔ j ∈ s.running := List.mem_erase_of_ne hji
            simp only [h2]
        · intro x hx
          rcases hacq x hx with h | h | h
          · rw [hq] at h; simp at h
          · by_cases hxi : x = i
            · exact .inr (.inr (hxi ▸ hist))
            · exact .inr (.inl ((List.mem_erase_of_ne hxi).mpr h))
          · exact .inr (.inr h)
      -- queue nonempty: decrement, shift head, start it (counter net unchanged)
      · injection hstep with h
        subst h
        have hjqmem : jq ∈ s.queue := by rw [hq]; simp
        have hjqnotrun : jq ∉ s.running := hqr jq hjqmem
        have hjqnoti : jq ≠ i := fun hx => hjqnotrun (hx ▸ hi)
        have hjqnotst : jq ∉ s.started := fun hx => hsq jq hx hjqmem
        have hjqenq : jq ∈ s.enqueued := hqe jq hjqmem
        have hqsrest : rest.Pairwise (· < ·) := by
          rw [hq] at hqs; exact hqs.of_cons
        have hjqlt : ∀ y ∈ rest, jq < y := by
          rw [hq] at hqs
          exact fun y hy => List.rel_of_pairwise_cons hqs hy
        have hrestq : ∀ y ∈ rest, y ∈ s.queue := by
          intro y hy; rw [hq]; simp [hy]
        refine ⟨?_, ?_, ?_, hqsrest, ?_, ?_, ?_, ?_, ?_, ?_, ?_, ?_, ?_, ?_, ?_⟩ <;> dsimp only
        · simp only [List.length_cons, List.length_erase_of_mem hi]
          have : 0 < s.running.length := List.length_pos_of_mem hi
          omega
        · exact hcl
        · refine List.nodup_cons.mpr ⟨?_, hrn.erase i⟩
          exact fun hx => hjqnotrun (List.mem_of_mem_erase hx)
        · intro x hx
          simp only [List.mem_cons, not_or]
          constructor
          · exact fun hxe => absurd (hxe ▸ hx) (by
              intro hmem
              exact absurd rfl (ne_of_gt (hjqlt jq hmem)))
          · intro hxr
            exact hqr x (hrestq x hx) (List.mem_of_mem_erase hxr)
        · intro x hx
          rcases hx with hx | hx | hx | hx
          · exact hlt x (.inl (hrestq x hx))
          · rcases List.mem_cons.mp hx with rfl | hx
            · exact hlt _ (.inl hjqmem)
            · exact hlt x (.inr (.inl (List.mem_of_mem_erase hx)))
          · exact hlt x (.inr (.inr (.inl hx)))
          · rcases List.mem_append.mp hx with hx | hx
            · exact hlt x (.inr (.inr (.inr hx)))
            · simp only [List.mem_singleton] at hx
              exact hx ▸ hlt jq (.inl hjqmem)
        · intro x hx
          exact hqe x (hrestq x hx)
        · intro x hx
          rcases hes x hx with h | h
          · rw [hq] at h
            rcases List.mem_cons.mp h with rfl | h
            · exact .inr (List.mem_append.mpr (.inr (by simp)))
            · exact .inl h
          · exact .inr (List.mem_append.mpr (.inl h))
        · intro x hx
          rcases List.mem_append.mp hx with hx | hx
          · intro hxq
            exact hsq x hx (hrestq x hxq)
          · simp only [List.mem_singleton] at hx
            intro hxq
            rw [hx] at hxq
            exact absurd rfl (ne_of_gt (hjqlt jq hxq))
        · intro x hx hxe y hy
          rcases List.mem_append.mp hx with hx | hx
          · exact hfb x hx hxe y (hrestq y hy)
          · simp only [List.mem_singleton] at hx
            exact hx ▸ hjqlt y hy
        · rw [List.filter_append]
          have hone : List.filter (fun x => decide (x ∈ s.enqueued)) [jq] = [jq] := by
            simp [hjqenq]
          rw [hone, List.pairwise_append]
          refine ⟨hsl, List.pairwise_singleton _ _, ?_⟩
          intro a ha b hb
          simp only [List.mem_singleton] at hb
          rw [hb]
          simp only [List.mem_filter, decide_eq_true_eq] at ha
          exact hfb a ha.1 ha.2 jq hjqmem
        · intro x hx
          rcases List.mem_cons.mp hx with rfl | hx
          · exact List.mem_append.mpr (.inr (by simp))
          · exact List.mem_append.mpr (.inl (hrs x (List.mem_of_mem_erase hx)))
        · simp only [List.length_set]; omega
        · intro j hj
          simp only [List.length_set] at hj
          by_cases hji : j = i
          · rw [hji, List.getElem?_set_self (by omega)]
            have h1 : i ∈ s.started ++ [jq] := List.mem_append.mpr (.inl hist)
            have h2 : i ∉ jq :: s.running.erase i := by
              simp only [List.mem_cons, not_or]
              exact ⟨Ne.symm hjqnoti, hrn.not_mem_erase⟩
            simp [h1, h2]
          · rw [List.getElem?_set_ne (Ne.symm hji), hrg j hj]
            by_cases hjjq : j = jq
            · rw [hjjq]
              have h1 : jq ∈ jq :: s.running.erase i := by simp
              simp [hjqnotst, h1]
            · have h1 : (j ∈ s.started ++ [jq]) ↔ j ∈ s.started := by simp [hjjq]
              have h2 : (j ∈ jq :: s.running.erase i) ↔ j ∈ s.running := by
                simp only [List.mem_cons, List.mem_erase_of_ne hji]
                simp [hjjq]
              simp only [h1, h2]
        · intro x hx
          rcases hacq x hx with h | h | h
          · rw [hq] at h
            rcases List.mem_cons.mp h with h | h
            · exact .inr (.inl (by simp [h]))
            · exact .inl h
          · by_cases hxi : x = i
            · exact .inr (.inr (List.mem_append.mpr (.inl (hxi ▸ hist))))
            · exact .inr (.inl (by
                simp only [List.mem_cons]
                exact .inr ((List.mem_erase_of_ne hxi).mpr h)))
          · exact .inr (.inr (List.mem_append.mpr (.inl h)))

theorem semInv_run {R : Type} {f : Nat → R} {s s' : SemState R} {es : List SemEvent}
    (hrun : semRun f s es = some s') (hinv : SemInv f s) : SemInv f s' := by
  induction es generalizing s with
  | nil => simp only [semRun] at hrun; injection hrun with h; exact h ▸ hinv
  | cons e es ih =>
    simp only [semRun] at hrun
    split at hrun
    · exact absurd hrun (by simp)
    · next s'' hstep => exact ih hrun (semInv_step hinv hstep)

theorem semStep_max {R : Type} {f : Nat → R} {s s' : SemState R} {e : SemEvent}
    (hstep : semStep f s e = some s') : s'.maxConcurrent = s.maxConcurrent := by
  cases e with
  | acq =>
    simp only [semStep] at hstep
    split at hstep
    · split at hstep <;> (injection hstep with h; subst h; rfl)
    · exact absurd hstep (by simp)
  | fin i ok =>
    simp only [semStep] at hstep
    split at hstep
    · split at hstep <;> (injection hstep with h; subst h; rfl)
    · exact absurd hstep (by simp)

theorem semRun_max {R : Type} {f : Nat → R} {s s' : SemState R} {es : List SemEvent}
    (hrun : semRun f s es = some s') : s'.maxConcurrent = s.maxConcurrent := by
  induction es generalizing s with
  | nil => simp only [semRun] at hrun; injection hrun with h; exact h ▸ rfl
  | cons e es ih =>
    simp only [semRun] at hrun
    split at hrun
    · exact absurd hrun (by simp)
    · next s'' hstep => exact (ih hrun).trans (semStep_max hstep)

theorem semStep_rlen {R : Type} {f : Nat → R} {s s' : SemState R} {e : SemEvent}
    (hstep : semStep f s e = some s') : s'.results.length = s.results.length := by
  cases e with
  | acq =>
    simp only [semStep] at hstep
    split at hstep
    · split at hstep <;> (injection hstep with h; subst h; rfl)
    · exact absurd hstep (by simp)
  | fin i ok =>
    simp only [semStep] at hstep
    split at hstep
    · split at hstep <;>
        (injection hstep with h; subst h; simp only [List.length_set])
    · exact absurd hstep (by simp)

theorem semRun_rlen {R : Type} {f : Nat → R} {s s' : SemState R} {es : List SemEvent}
    (hrun : semRun f s es = some s') : s'.results.length = s.results.length := by
  induction es generalizing s with
  | nil => simp only [semRun] at hrun; injection hrun with h; exact h ▸ rfl
  | cons e es ih =>
    simp only [semRun] at hrun
    split at hrun
    · exact absurd hrun (by simp)
    · next s'' hstep => exact (ih hrun).trans (semStep_rlen hstep)

/-- In a `Pairwise (· < ·)` list, any two members appear in value order. -/
theorem pair_sublist_of_pairwise_lt {l : List Nat} (hp : l.Pairwise (· < ·)) :
    ∀ {a b : Nat}, a ∈ l → b ∈ l → a < b → List.Sublist [a, b] l := by
  induction l with
  | nil => intro a b ha _ _; cases ha
  | cons x xs ih =>
    intro a b ha hb hab
    rcases List.mem_cons.mp ha with hax | ha'
    · rcases List.mem_cons.mp hb with hbx | hb'
      · omega
      · rw [hax]
        exact List.Sublist.cons₂ x (List.singleton_sublist.mpr hb')
    · rcases List.mem_cons.mp hb with hbx | hb'
      · have := List.rel_of_pairwise_cons hp ha'
        omega
      · exact List.Sublist.cons x (ih hp.of_cons ha' hb' hab)

/-- **C2** — Semaphore counter invariant.  For a `Semaphore` built with
`maxConcurrent = k` and any schedule of `acquire` calls and task
completions (successes or rejections alike), every reachable state has
`currentCount` equal to the number of tasks currently inside the gate
(hence `0 ≤ currentCount`, with no `ℕ`-underflow: the counter is the
exact cardinality of `running`) and `currentCount ≤ k`; moreover the
completion transition is identical for fulfilled (`ok = true`) and
rejected (`ok = false`) tasks — the `finally` path — so a thrown task
never leaks a slot (lines 659–699). -/
theorem semaphore_count_invariant {R : Type} (f : Nat → R) (k n : Nat)
    (es : List SemEvent) (s : SemState R)
    (hrun : semRun f (initSem R k n) es = some s) :
    (s.currentCount = s.running.length ∧ s.currentCount ≤ k) ∧
    ∀ i ok, semStep f s (.fin i ok) = semStep f s (.fin i true) := by
  have hinv := semInv_run hrun (semInv_init f k n)
  have hmax : s.maxConcurrent = k := semRun_max hrun
  exact ⟨⟨hinv.count_run, hmax ▸ hinv.count_le⟩, fun i ok => rfl⟩

/-- Final scheduler state of the C2 witness schedule (`k = 1`, two
tasks, the first of which rejects). -/
def semC2State : SemState Nat :=
  { maxConcurrent := 1, currentCount := 0, queue := [], nextAcquire := 2,
    running := [], enqueued := [1], started := [0, 1], results := [some 0, some 1] }

theorem semaphore_count_invariant_witness :
    (semC2State.currentCount = semC2State.running.length ∧ semC2State.currentCount ≤ 1) ∧
    ∀ i ok, semStep (fun i => i) semC2State (.fin i ok) =
      semStep (fun i => i) semC2State (.fin i true) :=
  semaphore_count_invariant (fun i => i) 1 2
    [.acq, .acq, .fin 0 false, .fin 1 true] semC2State (by decide)

/-- **C3** — FIFO fairness.  If `acquire` call `i` precedes `acquire`
call `j` (`i < j`; `processBatch` issues acquires in input order) and
both were queued (the semaphore was at capacity at both call times),
then whenever `j` has been granted a slot, `i` was granted one earlier:
`[i, j]` is a sublist of the slot-grant log `started`
(lines 674–698). -/
theorem semaphore_fifo {R : Type} (f : Nat → R) (k n : Nat) (es : List SemEvent)
    (s : SemState R) (hrun : semRun f (initSem R k n) es = some s)
    (i j : Nat) (hij : i < j) (hi : i ∈ s.enqueued) (hj : j ∈ s.enqueued)
    (hjs : j ∈ s.started) :
    i ∈ s.started ∧ List.Sublist [i, j] s.started := by
  have hinv := semInv_run hrun (semInv_init f k n)
  have his : i ∈ s.started := by
    rcases hinv.enq_split i hi with h | h
    · exact absurd (hinv.fifo_bound j hjs hj i h) (by omega)
    · exact h
  refine ⟨his, ?_⟩
  have hfi : i ∈ s.started.filter (fun x => decide (x ∈ s.enqueued)) :=
    List.mem_filter.mpr ⟨his, by simpa using hi⟩
  have hfj : j ∈ s.started.filter (fun x => decide (x ∈ s.enqueued)) :=
    List.mem_filter.mpr ⟨hjs, by simpa using hj⟩
  exact (pair_sublist_of_pairwise_lt hinv.start_log hfi hfj hij).trans
    (List.filter_sublist _)

/-- Final scheduler state of the C3 witness schedule (`k = 1`, three
tasks; tasks 1 and 2 are both queued). -/
def semC3State : SemState Nat :=
  { maxConcurrent := 1, currentCount := 0, queue := [], nextAcquire := 3,
    running := [], enqueued := [1, 2], started := [0, 1, 2],
    results := [some 0, some 1, some 2] }

theorem semaphore_fifo_witness :
    1 ∈ semC3State.started ∧ List.Sublist [1, 2] semC3State.started :=
  semaphore_fifo (fun i => i) 1 3
    [.acq, .acq, .acq, .fin 0 true, .fin 1 true, .fin 2 true] semC3State
    (by decide) 1 2 (by decide) (by decide) (by decide) (by decide)

/-! ## `processBatch` and `Promise.all` result assembly -/

/-- `processBatch` (lines 142–161): build one `Semaphore` with limit
`k`, `acquire` one task per batch item (in input order) and join with
`Promise.all`.  `es` is the nondeterministic completion schedule; the
function returns the `Promise.all` value when the schedule is complete
(all `n` acquires made, no task queued or running), `none` for an
incomplete schedule.  `f i` is the `DownloadResult` task `i` settles
with, `d` an irrelevant default for reading filled slots. -/
def processBatchT {R : Type} (f : Nat → R) (k n : Nat) (es : List SemEvent) (d : R) :
    Option (List R) :=
  match semRun f (initSem R k n) es with
  | none => none
  | some s =>
    if s.nextAcquire = n ∧ s.queue = [] ∧ s.running = [] then
      some (s.results.map (fun o => o.getD d))
    else none

/-- Whatever the completion order, `Promise.all` hands back the per-task
values in input order. -/
theorem processBatchT_eq {R : Type} {f : Nat → R} {k n : Nat} {es : List SemEvent}
    {d : R} {rs : List R} (h : processBatchT f k n es d = some rs) :
    rs = (List.range n).map f := by
  unfold processBatchT at h
  split at h
  · exact absurd h (by simp)
  · next s hs =>
    split at h
    · next hc =>
      obtain ⟨hna, hqe, hre⟩ := hc
      injection h with h
      have hinv := semInv_run hs (semInv_init f k n)
      have hlen : s.results.length = n := by
        have := semRun_rlen hs
        simpa [initSem] using this
      subst h
      apply List.ext_getElem?
      intro m
      by_cases hm : m < n
      · have hms : m ∈ s.started := by
          rcases hinv.acq_split m (by omega) with hh | hh | hh
          · rw [hqe] at hh; simp at hh
          · rw [hre] at hh; simp at hh
          · exact hh
        have hmr : m ∉ s.running := by rw [hre]; simp
        have hval := hinv.res_get m (by omega)
        rw [List.getElem?_map, hval]
        simp [hms, hmr, List.getElem?_range hm]
      · have h1 : (s.results.map (fun o => o.getD d))[m]? = none := by
          rw [List.getElem?_eq_none]
          simp [hlen]; omega
        have h2 : ((List.range n).map f)[m]? = none := by
          rw [List.getElem?_eq_none]
          simp; omega
        rw [h1, h2]
    · exact absurd h (by simp)

theorem processBatchT_length {R : Type} {f : Nat → R} {k n : Nat} {es : List SemEvent}
    {d : R} {rs : List R} (h : processBatchT f k n es d = some rs) : rs.length = n := by
  rw [processBatchT_eq h]
  simp

/-! ## Single-item download chain

Embedding of `attemptDownloadWithContext` (ConcurrentDownloadService,
lines 304–386), `DownloadService.attemptDownload` (lines 1177–1313),
`downloadFromDirectUrl` (lines 584–635 resp. 1326–1378),
`downloadImageWithContext` (lines 259–291) and `downloadSingleImage`
(lines 172–247).  DOM extraction, the HTTP response, the saved-file
outcome and the filesystem probe are oracles in `AttemptEnv`. -/

/-- Effect events of one single download attempt. -/
inductive AEv where
  | checkExists
  | newPage
  | extractMeta (url : String)
  | fetchResource (url : String)
  | saveFile
  | closePage
  deriving Repr, DecidableEq

/-- Is the event the metadata-extraction step (`extractVscoImageMetadata`)? -/
def AEv.isExtract : AEv → Bool
  | .extractMeta _ => true
  | _ => false

/-- Is the event the navigation that fetches the image resource? -/
def AEv.isFetch : AEv → Bool
  | .fetchResource _ => true
  | _ => false

/-- `ImageExistsResult` of `fs.imageExists` (`exists` is a field name in
the source; `exists'` here). -/
structure ImageExistsResult where
  exists' : Bool
  filepath : Option String := none
  size : Option Nat := none
  deriving Repr, DecidableEq

/-- `SavedFileInfo` of `fs.saveImageFile`. -/
structure SavedFileInfo where
  filepath : String
  filename : String
  size : Nat
  deriving Repr, DecidableEq

/-- The `page.goto` response (`none` models a `null` response). -/
structure HttpResponse where
  ok : Bool
  status : Nat
  deriving Repr, DecidableEq

/-- Oracle environment of one single attempt: the filesystem probe, the
outcome of `extractVscoImageMetadata` (already carrying that function's
own error wrapping), the HTTP response for the direct image URL, the
response body length, and the `saveImageFile` outcome. -/
structure AttemptEnv where
  existing : ImageExistsResult
  extractO : Except String VscoMeta
  response : Option HttpResponse := none
  bodyLen : Nat := 0
  saved : SavedFileInfo := ⟨"", "", 0⟩
  deriving Repr

/-- JavaScript `a || b` on optional strings (empty string is falsy). -/
def jsOrStr (a b : Option String) : Option String :=
  match a with
  | some s => if s = "" then b else some s
  | none => b

/-- JavaScript `a || dflt` where the result is used as a string. -/
def jsOrDflt (a : Option String) (dflt : String) : String :=
  match a with
  | some s => if s = "" then dflt else s
  | none => dflt

/-- JavaScript `if (x) result.field = x` for an optional string. -/
def jsTruthy (o : Option String) : Option String :=
  match o with
  | some s => if s = "" then none else some s
  | none => none

/-- JavaScript `if (x) result.field = x` for an optional number
(`0` is falsy). -/
def jsTruthyNat (o : Option Nat) : Option Nat :=
  match o with
  | some v => if v = 0 then none else some v
  | none => none

/-- `path.basename` as used on forward-slash download paths. -/
def basename (p : String) : String := ((p.splitOn "/").getLast?).getD p

/-- URL building shared by both attempt functions (lines 338–351 resp.
1260–1273): split `photoId` on `/`, `imageId = parts[1] || photoId`,
prefer a truthy `imageData.vsco_url`. -/
def buildVscoUrl (photoId : String) (d : ImageData) : String :=
  let parts := photoId.splitOn "/"
  let username := parts.headD ""
  let p1 := parts.getD 1 ""
  let imageId := if p1 = "" then photoId else p1
  if (d.vsco_url.getD "") ≠ "" then d.vsco_url.getD ""
  else if username ≠ "" ∧ imageId ≠ "" ∧ imageId ≠ username then
    "https://vsco.co/" ++ username ++ "/media/" ++ imageId
  else
    "https://vsco.co/" ++ username

/-- `downloadFromDirectUrl`: navigate to the direct image URL, require a
non-null OK response and a non-empty body, save, and build the success
result; every failure is wrapped into
`Failed to download from direct URL: …` and thrown. -/
def downloadFromDirectUrl (env : AttemptEnv) (imageUrl photoId : String)
    (d : ImageData) (vm : VscoMeta) : Except String DownloadResult × List AEv :=
  match env.response with
  | none =>
    (.error "Failed to download from direct URL: HTTP undefined: Failed to fetch image",
     [.fetchResource imageUrl])
  | some resp =>
    if !resp.ok then
      (.error ("Failed to download from direct URL: HTTP " ++ toString resp.status ++
        ": Failed to fetch image"), [.fetchResource imageUrl])
    else if env.bodyLen = 0 then
      (.error "Failed to download from direct URL: Empty image data received",
       [.fetchResource imageUrl])
    else
      (.ok { success := true, photoId := photoId,
             filepath := some env.saved.filepath,
             filename := some env.saved.filename,
             size := some env.saved.size,
             author := jsOrStr d.author d.image_author,
             authorUrl := d.authorUrl,
             imageUrl := some imageUrl,
             width := d.width, height := d.height,
             uploadDate := vm.uploadDate,
             availableSizes := vm.availableSizes,
             srcset := vm.srcset },
       [.fetchResource imageUrl, .saveFile])

/-- `ConcurrentDownloadService.attemptDownloadWithContext` (single try):
existing file → immediate skipped success (no further work); dry run →
simulated success; otherwise build the VSCO URL, open a page, extract
metadata and fetch the direct URL, closing the page in a `finally`. -/
def attemptDownloadWithContext (dryRun : Bool) (env : AttemptEnv)
    (photoId : String) (d : ImageData) : Except String DownloadResult × List AEv :=
  if env.existing.exists' then
    (.ok { success := true, photoId := photoId,
           filepath := some (env.existing.filepath.getD ""),
           filename := some (basename (env.existing.filepath.getD "")),
           size := some (env.existing.size.getD 0),
           skipped := true,
           author := some (d.image_author.getD "") }, [.checkExists])
  else if dryRun then
    (.ok { success := true, photoId := photoId, dryRun := true,
           author := some (d.image_author.getD "") }, [.checkExists])
  else
    let url := buildVscoUrl photoId d
    match env.extractO with
    | .error e => (.error e, [.checkExists, .newPage, .extractMeta url, .closePage])
    | .ok vm =>
      let fr := downloadFromDirectUrl env vm.directImageUrl photoId d vm
      (fr.1, [.checkExists, .newPage, .extractMeta url] ++ fr.2 ++ [.closePage])

/-- `DownloadService.attemptDownload` (single try, sequential service):
differs from the concurrent variant in the existing-file branch, which
*still* runs `extractVscoImageMetadata` so manifests stay complete,
falling back to the bare skipped result when extraction throws. -/
def attemptDownload (dryRun : Bool) (env : AttemptEnv)
    (photoId : String) (d : ImageData) : Except String DownloadResult × List AEv :=
  if env.existing.exists' then
    let url := buildVscoUrl photoId d
    let base : DownloadResult :=
      { success := true, photoId := photoId,
        filepath := some (env.existing.filepath.getD ""),
        filename := some (basename (env.existing.filepath.getD "")),
        size := some (env.existing.size.getD 0),
        skipped := true,
        author := some (d.image_author.getD "") }
    match env.extractO with
    | .ok vm =>
      (.ok { base with
              uploadDate := jsTruthy vm.uploadDate,
              availableSizes := vm.availableSizes,
              srcset := jsTruthy vm.srcset,
              originalWidth := jsTruthyNat vm.originalWidth,
              originalHeight := jsTruthyNat vm.originalHeight },
       [.checkExists, .extractMeta url])
    | .error _ => (.ok base, [.checkExists, .extractMeta url])
  else if dryRun then
    (.ok { success := true, photoId := photoId, dryRun := true,
           author := some (d.image_author.getD "") }, [.checkExists])
  else
    let url := buildVscoUrl photoId d
    match env.extractO with
    | .error e => (.error e, [.checkExists, .extractMeta url])
    | .ok vm =>
      let fr := downloadFromDirectUrl env vm.directImageUrl photoId d vm
      (fr.1, [.checkExists, .extractMeta url] ++ fr.2)

/-- Retry-level trace events: one attempt call (with its inner trace) or
one backoff sleep. -/
inductive Ev where
  | att (a : Nat) (tr : List AEv)
  | sleepE (ms : Nat)
  deriving Repr, DecidableEq

/-- Attempt numbers called, in order. -/
def attemptsOf (tr : List Ev) : List Nat :=
  tr.filterMap (fun e => match e with | .att a _ => some a | _ => none)

/-- Backoff sleeps performed, in order (milliseconds). -/
def sleepsOf (tr : List Ev) : List Nat :=
  tr.filterMap (fun e => match e with | .sleepE ms => some ms | _ => none)

/-- The retry loop of `downloadImageWithContext`, parametrised by the
remaining iteration count (`remaining = retries - attempt + 1`): run one
attempt, return a success immediately; on failure sleep
`2 ^ attempt * 1000` ms when more attempts remain, then retry; after the
loop return the non-thrown failure result carrying
`lastError?.message || "Unknown error after all retries"`. -/
def retryGo (attemptFn : Nat → Except String DownloadResult × List AEv)
    (photoId : String) (d : ImageData) :
    Nat → Nat → Option String → DownloadResult × List Ev
  | 0, _, lastError =>
    ({ success := false, photoId := photoId,
       error := some (jsOrDflt lastError "Unknown error after all retries"),
       author := some (d.image_author.getD "") }, [])
  | remaining + 1, attempt, _lastError =>
    match attemptFn attempt with
    | (.ok r, tr) => (r, [.att attempt tr])
    | (.error e, tr) =>
      let rest := retryGo attemptFn photoId d remaining (attempt + 1) (some e)
      (rest.1,
        .att attempt tr ::
          ((if 0 < remaining then [Ev.sleepE (2 ^ attempt * 1000)] else []) ++ rest.2))

/-- `downloadImageWithContext` (lines 259–291): the retry loop started
at attempt 1 with no previous error.  Total — the loop never throws. -/
def downloadImageWithContext (attemptFn : Nat → Except String DownloadResult × List AEv)
    (retries : Nat) (photoId : String) (d : ImageData) : DownloadResult × List Ev :=
  retryGo attemptFn photoId d retries 1 none

/-- Task-level trace events of `downloadSingleImage`. -/
inductive SEv where
  | getCtxE
  | retryRun (tr : List Ev)
  | releaseCtxE
  deriving Repr, DecidableEq

/-- Is the event the `browserPool.releaseContext` call? -/
def SEv.isRelease : SEv → Bool
  | .releaseCtxE => true
  | _ => false

/-- Is the event a successful `browserPool.getContext` return? -/
def SEv.isGet : SEv → Bool
  | .getCtxE => true
  | _ => false

/-- `downloadSingleImage` (lines 172–247): lease a context (`ctxO` is
the `getContext` outcome), run the retry loop, and release the context
in the `finally` block; any error thrown inside the `try` after the
lease (modelled by `postErr`, e.g. from result handling) is caught and
folded into a failed result, with the release still performed.  A
`getContext` failure is caught the same way, with no release (the
`finally` guard `if (context)`). -/
def downloadSingleImage (ctxO : Except String Unit) (postErr : Option String)
    (attemptFn : Nat → Except String DownloadResult × List AEv)
    (retries : Nat) (entry : ImageEntry) : DownloadResult × List SEv :=
  match ctxO with
  | .error e =>
    ({ success := false, photoId := entry.1, error := some e,
       author := some (entry.2.image_author.getD "") }, [])
  | .ok _ =>
    let dr := downloadImageWithContext attemptFn retries entry.1 entry.2
    match postErr with
    | some e =>
      ({ success := false, photoId := entry.1, error := some e,
         author := some (entry.2.image_author.getD "") },
       [.getCtxE, .retryRun dr.2, .releaseCtxE])
    | none => (dr.1, [.getCtxE, .retryRun dr.2, .releaseCtxE])

/-! ## Batching orchestrator (`downloadImagesConcurrently`, lines 85–131) -/

/-- JavaScript `x || dflt` for a numeric config value (`0` is falsy). -/
def jsOrNat (o : Option Nat) (dflt : Nat) : Nat :=
  match o with
  | some v => if v = 0 then dflt else v
  | none => dflt

/-- Sizes of the consecutive slices `items.slice(i, min(i + bs, n))` of
the batching loop; the fuel argument (initially `n`) only bounds the
recursion. -/
def chunkSizesAux (bs : Nat) : Nat → Nat → List Nat
  | 0, _ => []
  | _, 0 => []
  | fuel + 1, rem + 1 => min bs (rem + 1) :: chunkSizesAux bs fuel (rem + 1 - bs)

/-- Batch sizes produced by the `for (let i = 0; i < n; i += bs)` loop. -/
def chunkSizes (bs n : Nat) : List Nat := chunkSizesAux bs n n

/-- The batching loop: process the slices in order, appending each
batch's results, and sleep `delay` ms after a batch whenever more items
remain (`batchEnd < imageEntries.length && delayBetweenBatches > 0`).
`start` is the slice offset, `bno` the batch number indexing the
per-batch completion schedule `ts`. -/
def runBatchesT {R : Type} (f : Nat → R) (kmax delay total : Nat)
    (ts : Nat → List SemEvent) (d : R) :
    List Nat → Nat → Nat → Option (List R × List Nat)
  | [], _, _ => some ([], [])
  | m :: rest, start, bno =>
    (processBatchT (fun j => f (start + j)) (min m kmax) m (ts bno) d).bind fun rs =>
      (runBatchesT f kmax delay total ts d rest (start + m) (bno + 1)).bind fun pr =>
        some (rs ++ pr.1,
          (if start + m < total ∧ 0 < delay then [delay] else []) ++ pr.2)

/-- `downloadImagesConcurrently` with resolved configuration values:
without batching, one `processBatch` over the whole list (concurrency
`min(n, maxConcurrency)` set inside `processBatch`); with batching, the
slice loop.  Returns the result list and the inter-batch sleeps. -/
def downloadImagesConcurrentlyT {R : Type} (f : Nat → R) (kmax bs delay : Nat)
    (enableBatching : Bool) (n : Nat) (ts : Nat → List SemEvent) (d : R) :
    Option (List R × List Nat) :=
  if enableBatching then
    runBatchesT f kmax delay n ts d (chunkSizes bs n) 0 0
  else
    match processBatchT f (min n kmax) n (ts 0) d with
    | none => none
    | some rs => some (rs, [])

/-- `downloadImagesConcurrently` reading its raw configuration:
`maxConcurrency = cfg || 3`, `enableBatching = cfg ?? true`,
`batchSize = cfg || maxConcurrency`, `delayBetweenBatches = cfg || 1000`
(lines 87–90). -/
def downloadImagesConcurrentlyCfg {R : Type} (f : Nat → R)
    (cfgMaxConcurrency cfgBatchSize cfgDelay : Option Nat)
    (cfgEnableBatching : Option Bool) (n : Nat) (ts : Nat → List SemEvent)
    (d : R) : Option (List R × List Nat) :=
  let maxConcurrency := jsOrNat cfgMaxConcurrency 3
  let enableBatching := cfgEnableBatching.getD true
  let batchSize := jsOrNat cfgBatchSize maxConcurrency
  let delayBetweenBatches := jsOrNat cfgDelay 1000
  downloadImagesConcurrentlyT f maxConcurrency batchSize delayBetweenBatches
    enableBatching n ts d

/-- The per-item task value of `processBatch`: task `i` settles with the
`downloadSingleImage` result of `items[i]`, whose attempts run
`attemptDownloadWithContext` in environment `envs i a`. -/
def taskOutcome (ctxOs : Nat → Except String Unit) (postErrs : Nat → Option String)
    (dryRun : Bool) (envs : Nat → Nat → AttemptEnv) (retries : Nat)
    (items : List ImageEntry) (i : Nat) : DownloadResult :=
  (downloadSingleImage (ctxOs i) (postErrs i)
    (fun a => attemptDownloadWithContext dryRun (envs i a)
      (items.getD i dfltEntry).1 (items.getD i dfltEntry).2)
    retries (items.getD i dfltEntry)).1

/-! ## Batching lemmas -/

theorem chunkSizesAux_congr (bs : Nat) (hbs : 0 < bs) :
    ∀ fuel fuel' n, n ≤ fuel → n ≤ fuel' →
      chunkSizesAux bs fuel n = chunkSizesAux bs fuel' n := by
  intro fuel
  induction fuel with
  | zero =>
    intro fuel' n h1 h2
    have h0 : n = 0 := by omega
    subst h0
    cases fuel' <;> rfl
  | succ f ih =>
    intro fuel' n h1 h2
    cases n with
    | zero => cases fuel' <;> rfl
    | succ m =>
      cases fuel' with
      | zero => omega
      | succ f' =>
        simp only [chunkSizesAux]
        congr 1
        exact ih f' (m + 1 - bs) (by omega) (by omega)

theorem chunkSizes_zero (bs : Nat) : chunkSizes bs 0 = [] := rfl

theorem chunkSizes_succ (bs n : Nat) (hbs : 0 < bs) (hn : 0 < n) :
    chunkSizes bs n = min bs n :: chunkSizes bs (n - bs) := by
  obtain ⟨m, rfl⟩ : ∃ m, n = m + 1 := ⟨n - 1, by omega⟩
  show chunkSizesAux bs (m + 1) (m + 1) = _
  simp only [chunkSizesAux]
  congr 1
  exact chunkSizesAux_congr bs hbs m (m + 1 - bs) (m + 1 - bs) (by omega) le_rfl

theorem chunkSizes_sum (bs : Nat) (hbs : 0 < bs) :
    ∀ n, (chunkSizes bs n).sum = n := by
  intro n
  induction n using Nat.strong_induction_on with
  | _ n ih =>
    rcases Nat.eq_zero_or_pos n with rfl | hn
    · rfl
    · rw [chunkSizes_succ bs n hbs hn, List.sum_cons, ih (n - bs) (by omega)]
      omega

theorem chunkSizes_pos (bs : Nat) (hbs : 0 < bs) :
    ∀ n, ∀ m ∈ chunkSizes bs n, 0 < m ∧ m ≤ bs := by
  intro n
  induction n using Nat.strong_induction_on with
  | _ n ih =>
    rcases Nat.eq_zero_or_pos n with rfl | hn
    · intro m hm; simp [chunkSizes_zero] at hm
    · rw [chunkSizes_succ bs n hbs hn]
      intro m hm
      rcases List.mem_cons.mp hm with h | h
      · constructor <;> omega
      · exact ih (n - bs) (by omega) m h

theorem chunkSizes_ne_nil (bs n : Nat) (hbs : 0 < bs) (hn : 0 < n) :
    chunkSizes bs n ≠ [] := by
  rw [chunkSizes_succ bs n hbs hn]
  simp

theorem chunkSizes_length (bs : Nat) (hbs : 0 < bs) :
    ∀ n, (chunkSizes bs n).length = (n + bs - 1) / bs := by
  intro n
  induction n using Nat.strong_induction_on with
  | _ n ih =>
    rcases Nat.eq_zero_or_pos n with rfl | hn
    · rw [chunkSizes_zero]
      have h1 : (bs - 1) / bs = 0 := Nat.div_eq_of_lt (by omega)
      simp [h1]
    · rw [chunkSizes_succ bs n hbs hn, List.length_cons, ih (n - bs) (by omega)]
      rcases le_or_lt n bs with hle | hlt
      · have h0 : n - bs = 0 := by omega
        rw [h0]
        have h1 : (0 + bs - 1) / bs = 0 := Nat.div_eq_of_lt (by omega)
        have h2 : (n + bs - 1) / bs = 1 := by
          apply Nat.div_eq_of_lt_le
          · omega
          · omega
        rw [h1, h2]
      · have e1 : n - bs + bs - 1 = n - 1 := by omega
        have e2 : n + bs - 1 = (n - 1) + bs := by omega
        rw [e1, e2, Nat.add_div_right _ hbs]

theorem chunkSizes_dropLast (bs : Nat) (hbs : 0 < bs) :
    ∀ n, ∀ m ∈ (chunkSizes bs n).dropLast, m = bs := by
  intro n
  induction n using Nat.strong_induction_on with
  | _ n ih =>
    rcases Nat.eq_zero_or_pos n with rfl | hn
    · intro m hm; simp [chunkSizes_zero] at hm
    · rw [chunkSizes_succ bs n hbs hn]
      rcases le_or_lt n bs with hle | hlt
      · have h0 : n - bs = 0 := by omega
        rw [h0, chunkSizes_zero]
        intro m hm
        simp at hm
      · have hne : chunkSizes bs (n - bs) ≠ [] :=
          chunkSizes_ne_nil bs (n - bs) hbs (by omega)
        rw [List.dropLast_cons_of_ne_nil hne]
        intro m hm
        rcases List.mem_cons.mp hm with h | h
        · rw [h]; omega
        · exact ih (n - bs) (by omega) m h

theorem runBatchesT_results {R : Type} (f : Nat → R) (kmax delay total : Nat)
    (ts : Nat → List SemEvent) (d : R) :
    ∀ (sizes : List Nat) (start bno : Nat) (rs : List R) (sleeps : List Nat),
      runBatchesT f kmax delay total ts d sizes start bno = some (rs, sleeps) →
      rs = (List.range sizes.sum).map (fun j => f (start + j)) := by
  intro sizes
  induction sizes with
  | nil =>
    intro start bno rs sleeps h
    simp only [runBatchesT] at h
    injection h with h
    injection h with ha hb
    subst ha
    simp
  | cons m rest ih =>
    intro start bno rs sleeps h
    simp only [runBatchesT] at h
    rw [Option.bind_eq_some] at h
    obtain ⟨rs1, h1, h⟩ := h
    rw [Option.bind_eq_some] at h
    obtain ⟨⟨rs2, sleeps2⟩, h2, h⟩ := h
    injection h with h
    injection h with ha hb
    subst ha
    have e1 := processBatchT_eq h1
    have e2 := ih (start + m) (bno + 1) rs2 sleeps2 h2
    rw [e1, e2, List.sum_cons, List.range_add, List.map_append, List.map_map]
    congr 1
    apply List.map_congr_left
    intro a _
    show f ((start + m) + a) = f (start + (m + a))
    rw [Nat.add_assoc]

theorem runBatchesT_sleeps {R : Type} (f : Nat → R) (kmax delay total : Nat)
    (ts : Nat → List SemEvent) (d : R) (hdelay : 0 < delay) :
    ∀ (sizes : List Nat) (start bno : Nat) (rs : List R) (sleeps : List Nat),
      (∀ m ∈ sizes, 0 < m) → start + sizes.sum = total →
      runBatchesT f kmax delay total ts d sizes start bno = some (rs, sleeps) →
      sleeps = List.replicate (sizes.length - 1) delay := by
  intro sizes
  induction sizes with
  | nil =>
    intro start bno rs sleeps _ _ h
    simp only [runBatchesT] at h
    injection h with h
    injection h with ha hb
    subst hb
    rfl
  | cons m rest ih =>
    intro start bno rs sleeps hpos hsum h
    simp only [runBatchesT] at h
    rw [Option.bind_eq_some] at h
    obtain ⟨rs1, h1, h⟩ := h
    rw [Option.bind_eq_some] at h
    obtain ⟨⟨rs2, sleeps2⟩, h2, h⟩ := h
    injection h with h
    injection h with ha hb
    subst hb
    rw [List.sum_cons] at hsum
    have e2 : sleeps2 = List.replicate (rest.length - 1) delay :=
      ih (start + m) (bno + 1) rs2 sleeps2
        (fun x hx => hpos x (List.mem_cons.mpr (.inr hx))) (by omega) h2
    rcases rest with _ | ⟨r2, rest2⟩
    · have hcond : ¬(start + m < total ∧ 0 < delay) := by
        simp only [List.sum_nil] at hsum
        omega
      rw [if_neg hcond, e2]
      rfl
    · have hr2 : 0 < r2 := hpos r2 (by simp)
      have hsum2 : 0 < (r2 :: rest2).sum := by
        rw [List.sum_cons]; omega
      have hcond : start + m < total ∧ 0 < delay := ⟨by omega, hdelay⟩
      rw [if_pos hcond, e2]
      simp [List.replicate_succ]

/-! ## photoId preservation along the download chain -/

theorem jsOrNat_pos (o : Option Nat) (dflt : Nat) (h : 0 < dflt) :
    0 < jsOrNat o dflt := by
  unfold jsOrNat
  cases o with
  | none => exact h
  | some v =>
    dsimp only
    split
    · exact h
    · omega

theorem getD_map_range {α : Type} (g : Nat → α) {i n : Nat} (hi : i < n) (d : α) :
    ((List.range n).map g).getD i d = g i := by
  simp [List.getD, List.getElem?_map, List.getElem?_range hi]

theorem downloadFromDirectUrl_photoId {env : AttemptEnv} {url pid : String}
    {d : ImageData} {vm : VscoMeta} {r : DownloadResult}
    (h : (downloadFromDirectUrl env url pid d vm).1 = .ok r) : r.photoId = pid := by
  unfold downloadFromDirectUrl at h
  rcases hresp : env.response with _ | resp
  · rw [hresp] at h
    exact Except.noConfusion h
  · rw [hresp] at h
    dsimp only at h
    split at h
    · exact Except.noConfusion h
    · split at h
      · exact Except.noConfusion h
      · injection h with h1
        rw [← h1]

theorem attemptDWC_photoId {dryRun : Bool} {env : AttemptEnv} {pid : String}
    {d : ImageData} {r : DownloadResult}
    (h : (attemptDownloadWithContext dryRun env pid d).1 = .ok r) : r.photoId = pid := by
  unfold attemptDownloadWithContext at h
  split at h
  · injection h with h1
    rw [← h1]
  · split at h
    · injection h with h1
      rw [← h1]
    · rcases hext : env.extractO with e | vm
      · rw [hext] at h
        exact Except.noConfusion h
      · rw [hext] at h
        dsimp only at h
        exact downloadFromDirectUrl_photoId h

theorem retryGo_photoId (attemptFn : Nat → Except String DownloadResult × List AEv)
    (pid : String) (d : ImageData)
    (hA : ∀ a r tr, attemptFn a = (.ok r, tr) → r.photoId = pid) :
    ∀ remaining attempt le, ((retryGo attemptFn pid d remaining attempt le).1).photoId = pid := by
  intro remaining
  induction remaining with
  | zero => intro attempt le; rfl
  | succ rem ih =>
    intro attempt le
    simp only [retryGo]
    rcases hfa : attemptFn attempt with ⟨res, tr⟩
    rcases res with e | r
    · exact ih (attempt + 1) (some e)
    · exact hA attempt r tr hfa

theorem downloadSingleImage_photoId (ctxO : Except String Unit)
    (postErr : Option String) (attemptFn : Nat → Except String DownloadResult × List AEv)
    (retries : Nat) (entry : ImageEntry)
    (hA : ∀ a r tr, attemptFn a = (.ok r, tr) → r.photoId = entry.1) :
    ((downloadSingleImage ctxO postErr attemptFn retries entry).1).photoId = entry.1 := by
  unfold downloadSingleImage
  cases ctxO with
  | error e => rfl
  | ok u =>
    cases postErr with
    | none => exact retryGo_photoId attemptFn entry.1 entry.2 hA retries 1 none
    | some e => rfl

theorem taskOutcome_photoId (ctxOs : Nat → Except String Unit)
    (postErrs : Nat → Option String) (dryRun : Bool)
    (envs : Nat → Nat → AttemptEnv) (retries : Nat) (items : List ImageEntry)
    (i : Nat) :
    (taskOutcome ctxOs postErrs dryRun envs retries items i).photoId =
      (items.getD i dfltEntry).1 :=
  downloadSingleImage_photoId _ _ _ _ _
    (fun a r tr hh => attemptDWC_photoId (by rw [hh]))

/-! ## Claim theorems C10 and C1 -/

/-- **C10** — batching schedule.  With `enableBatching = true`,
`downloadImagesConcurrently` partitions the input into consecutive
slices of length `batchSize` (last slice possibly shorter,
`⌈n / batchSize⌉` batches, every non-last slice of full length, every
slice non-empty and at most `batchSize` long), processes them strictly
in order appending each batch's results in input order (so the final
list is the per-item outcome in input order), and sleeps
`delayBetweenBatches` ms after every batch except the last
(`⌈n / batchSize⌉ - 1` sleeps), for any per-batch completion
schedule that lets all batches finish (lines 99–131). -/
theorem batching_schedule {R : Type} (f : Nat → R) (kmax bs delay n : Nat)
    (ts : Nat → List SemEvent) (d : R) (rs : List R) (sleeps : List Nat)
    (hbs : 0 < bs) (hdelay : 0 < delay)
    (h : downloadImagesConcurrentlyT f kmax bs delay true n ts d = some (rs, sleeps)) :
    rs = (List.range n).map f ∧ rs.length = n ∧
    sleeps = List.replicate ((n + bs - 1) / bs - 1) delay ∧
    (chunkSizes bs n).sum = n ∧
    (chunkSizes bs n).length = (n + bs - 1) / bs ∧
    (∀ m ∈ chunkSizes bs n, 0 < m ∧ m ≤ bs) ∧
    (∀ m ∈ (chunkSizes bs n).dropLast, m = bs) := by
  unfold downloadImagesConcurrentlyT at h
  rw [if_pos rfl] at h
  have hsum := chunkSizes_sum bs hbs n
  have hrs := runBatchesT_results f kmax delay n ts d _ 0 0 rs sleeps h
  rw [hsum] at hrs
  have hrs' : rs = (List.range n).map f := by
    rw [hrs]
    apply List.map_congr_left
    intro a _
    simp
  have hsl := runBatchesT_sleeps f kmax delay n ts d hdelay _ 0 0 rs sleeps
    (fun m hm => (chunkSizes_pos bs hbs n m hm).1) (by rw [hsum]; omega) h
  rw [chunkSizes_length bs hbs n] at hsl
  exact ⟨hrs', by rw [hrs']; simp, hsl, hsum, chunkSizes_length bs hbs n,
    chunkSizes_pos bs hbs n, chunkSizes_dropLast bs hbs n⟩

/-- A completion schedule that acquires and finishes each task in turn. -/
def seqSchedule (m : Nat) : List SemEvent :=
  (List.range m).flatMap (fun i => [.acq, .fin i true])

/-- Per-batch schedules of the C10 witness (5 items, batches of 2). -/
def c10ts : Nat → List SemEvent :=
  fun b => if b < 2 then seqSchedule 2 else seqSchedule 1

theorem batching_schedule_witness :
    ([0, 1, 2, 3, 4] : List Nat) = (List.range 5).map (fun i => i) ∧
    ([0, 1, 2, 3, 4] : List Nat).length = 5 ∧
    ([500, 500] : List Nat) = List.replicate ((5 + 2 - 1) / 2 - 1) 500 ∧
    (chunkSizes 2 5).sum = 5 ∧
    (chunkSizes 2 5).length = (5 + 2 - 1) / 2 ∧
    (∀ m ∈ chunkSizes 2 5, 0 < m ∧ m ≤ 2) ∧
    (∀ m ∈ (chunkSizes 2 5).dropLast, m = 2) :=
  batching_schedule (fun i => i) 2 2 500 5 c10ts 0 [0, 1, 2, 3, 4] [500, 500]
    (by decide) (by decide) (by decide)

/-- **C1** — result ordering.  For any items, any browser/extraction
oracles, any raw configuration (both batching and non-batching modes)
and any completion schedule under which `downloadImagesConcurrently`
returns, the result list has the same length as the input and its
`i`-th element carries `photoId = items[i].1`, regardless of the order
in which individual tasks complete (lines 85–161). -/
theorem result_order (ctxOs : Nat → Except String Unit)
    (postErrs : Nat → Option String) (dryRun : Bool)
    (envs : Nat → Nat → AttemptEnv) (retries : Nat) (items : List ImageEntry)
    (cfgK cfgBS cfgDelay : Option Nat) (cfgB : Option Bool)
    (ts : Nat → List SemEvent) (d : DownloadResult)
    (rs : List DownloadResult) (sleeps : List Nat)
    (h : downloadImagesConcurrentlyCfg
      (taskOutcome ctxOs postErrs dryRun envs retries items)
      cfgK cfgBS cfgDelay cfgB items.length ts d = some (rs, sleeps)) :
    rs.length = items.length ∧
    ∀ i, i < items.length →
      (rs.getD i dfltResult).photoId = (items.getD i dfltEntry).1 := by
  have hout : rs = (List.range items.length).map
      (taskOutcome ctxOs postErrs dryRun envs retries items) := by
    simp only [downloadImagesConcurrentlyCfg] at h
    cases hb : cfgB.getD true
    · rw [hb] at h
      unfold downloadImagesConcurrentlyT at h
      rw [if_neg (by simp)] at h
      rcases hpb : processBatchT (taskOutcome ctxOs postErrs dryRun envs retries items)
          (min items.length (jsOrNat cfgK 3)) items.length (ts 0) d with _ | rs1
      · rw [hpb] at h
        exact absurd h (by simp)
      · rw [hpb] at h
        injection h with h
        injection h with ha hb2
        rw [← ha]
        exact processBatchT_eq hpb
    · rw [hb] at h
      unfold downloadImagesConcurrentlyT at h
      rw [if_pos rfl] at h
      have hbs : 0 < jsOrNat cfgBS (jsOrNat cfgK 3) :=
        jsOrNat_pos _ _ (jsOrNat_pos _ _ (by omega))
      have hrs := runBatchesT_results _ _ _ _ ts d _ 0 0 rs sleeps h
      rw [chunkSizes_sum _ hbs items.length] at hrs
      rw [hrs]
      apply List.map_congr_left
      intro a _
      simp
  constructor
  · rw [hout]; simp
  · intro i hi
    rw [hout, getD_map_range _ hi]
    exact taskOutcome_photoId ctxOs postErrs dryRun envs retries items i

/-! ## Retry loop (claim C4) -/

theorem attemptsOf_cons_att (a : Nat) (tr : List AEv) (l : List Ev) :
    attemptsOf (.att a tr :: l) = a :: attemptsOf l := rfl

theorem attemptsOf_cons_sleep (ms : Nat) (l : List Ev) :
    attemptsOf (.sleepE ms :: l) = attemptsOf l := rfl

theorem sleepsOf_cons_att (a : Nat) (tr : List AEv) (l : List Ev) :
    sleepsOf (.att a tr :: l) = sleepsOf l := rfl

theorem sleepsOf_cons_sleep (ms : Nat) (l : List Ev) :
    sleepsOf (.sleepE ms :: l) = ms :: sleepsOf l := rfl

theorem range_map_add_succ (attempt rem : Nat) :
    (List.range (rem + 1)).map (fun k => attempt + k) =
      attempt :: (List.range rem).map (fun k => (attempt + 1) + k) := by
  rw [List.range_succ_eq_map, List.map_cons, List.map_map]
  congr 1
  apply List.map_congr_left
  intro a _
  show attempt + (a + 1) = (attempt + 1) + a
  omega

theorem range_map_pow_succ (attempt rem : Nat) :
    (List.range (rem + 1)).map (fun k => 2 ^ (attempt + k) * 1000) =
      2 ^ attempt * 1000 :: (List.range rem).map (fun k => 2 ^ ((attempt + 1) + k) * 1000) := by
  rw [List.range_succ_eq_map, List.map_cons, List.map_map]
  refine List.cons_eq_cons.mpr ⟨?_, ?_⟩
  · show 2 ^ (attempt + 0) * 1000 = 2 ^ attempt * 1000
    rw [Nat.add_zero]
  · apply List.map_congr_left
    intro a _
    show 2 ^ (attempt + (a + 1)) * 1000 = 2 ^ ((attempt + 1) + a) * 1000
    have h : attempt + (a + 1) = (attempt + 1) + a := by omega
    rw [h]

theorem retryGo_fail_spec (attemptFn : Nat → Except String DownloadResult × List AEv)
    (pid : String) (d : ImageData) (E : Nat → String) (T : Nat → List AEv) :
    ∀ remaining attempt lastE, 0 < remaining →
      (∀ a, attempt ≤ a → a < attempt + remaining → attemptFn a = (.error (E a), T a)) →
      (retryGo attemptFn pid d remaining attempt lastE).1 =
        { success := false, photoId := pid,
          error := some (jsOrDflt (some (E (attempt + remaining - 1)))
            "Unknown error after all retries"),
          author := some (d.image_author.getD "") } ∧
      attemptsOf (retryGo attemptFn pid d remaining attempt lastE).2 =
        (List.range remaining).map (fun k => attempt + k) ∧
      sleepsOf (retryGo attemptFn pid d remaining attempt lastE).2 =
        (List.range (remaining - 1)).map (fun k => 2 ^ (attempt + k) * 1000) := by
  intro remaining
  induction remaining with
  | zero => intro attempt lastE h; omega
  | succ rem ih =>
    intro attempt lastE _ hfail
    have hthis : attemptFn attempt = (.error (E attempt), T attempt) :=
      hfail attempt le_rfl (by omega)
    simp only [retryGo, hthis]
    rcases rem with _ | rem'
    · refine ⟨?_, ?_, ?_⟩
      · show (retryGo attemptFn pid d 0 (attempt + 1) (some (E attempt))).1 = _
        simp only [retryGo]
        have h : attempt + 1 - 1 = attempt := by omega
        rw [h]
      · show attemptsOf (.att attempt (T attempt) ::
          (((if 0 < 0 then [Ev.sleepE (2 ^ attempt * 1000)] else []) : List Ev) ++
            (retryGo attemptFn pid d 0 (attempt + 1) (some (E attempt))).2)) = _
        simp [attemptsOf_cons_att, retryGo, attemptsOf, List.range_succ]
      · show sleepsOf (.att attempt (T attempt) ::
          (((if 0 < 0 then [Ev.sleepE (2 ^ attempt * 1000)] else []) : List Ev) ++
            (retryGo attemptFn pid d 0 (attempt + 1) (some (E attempt))).2)) = _
        simp [sleepsOf_cons_att, retryGo, sleepsOf]
    · obtain ⟨e1, e2, e3⟩ := ih (attempt + 1) (some (E attempt)) (by omega)
        (fun a h1 h2 => hfail a (by omega) (by omega))
      have hpos : 0 < rem' + 1 := by omega
      rw [if_pos hpos]
      refine ⟨?_, ?_, ?_⟩
      · rw [e1]
        have h : (attempt + 1) + (rem' + 1) - 1 = attempt + (rem' + 1 + 1) - 1 := by omega
        rw [h]
      · simp only [List.singleton_append, attemptsOf_cons_att, attemptsOf_cons_sleep, e2]
        exact (range_map_add_succ attempt (rem' + 1)).symm
      · simp only [List.singleton_append, sleepsOf_cons_att, sleepsOf_cons_sleep, e3]
        have h2 : (rem' + 1) - 1 = rem' := by omega
        have h3 : rem' + 1 + 1 - 1 = rem' + 1 := by omega
        rw [h2, h3]
        exact (range_map_pow_succ attempt rem').symm

theorem retryGo_succ_spec (attemptFn : Nat → Except String DownloadResult × List AEv)
    (pid : String) (d : ImageData) (E : Nat → String) (T : Nat → List AEv) :
    ∀ remaining attempt lastE a0 r tr,
      attempt ≤ a0 → a0 < attempt + remaining →
      (∀ a, attempt ≤ a → a < a0 → attemptFn a = (.error (E a), T a)) →
      attemptFn a0 = (.ok r, tr) →
      (retryGo attemptFn pid d remaining attempt lastE).1 = r ∧
      attemptsOf (retryGo attemptFn pid d remaining attempt lastE).2 =
        (List.range (a0 - attempt + 1)).map (fun k => attempt + k) ∧
      sleepsOf (retryGo attemptFn pid d remaining attempt lastE).2 =
        (List.range (a0 - attempt)).map (fun k => 2 ^ (attempt + k) * 1000) := by
  intro remaining
  induction remaining with
  | zero => intro attempt lastE a0 r tr h1 h2 _ _; omega
  | succ rem ih =>
    intro attempt lastE a0 r tr hle hlt hfail hok
    by_cases heq : attempt = a0
    · subst heq
      have hred : retryGo attemptFn pid d (rem + 1) attempt lastE = (r, [.att attempt tr]) := by
        simp only [retryGo, hok]
      rw [hred]
      refine ⟨rfl, ?_, ?_⟩
      · show attemptsOf [.att attempt tr] = _
        simp [attemptsOf, List.range_succ]
      · show sleepsOf [.att attempt tr] = _
        simp [sleepsOf]
    · have hlt' : attempt < a0 := by omega
      have hthis : attemptFn attempt = (.error (E attempt), T attempt) :=
        hfail attempt le_rfl hlt'
      simp only [retryGo, hthis]
      obtain ⟨e1, e2, e3⟩ := ih (attempt + 1) (some (E attempt)) a0 r tr (by omega)
        (by omega) (fun a ha1 ha2 => hfail a (by omega) ha2) hok
      have hrem : 0 < rem := by omega
      rw [if_pos hrem]
      refine ⟨e1, ?_, ?_⟩
      · simp only [List.singleton_append, attemptsOf_cons_att, attemptsOf_cons_sleep, e2]
        have h : a0 - attempt + 1 = (a0 - (attempt + 1) + 1) + 1 := by omega
        rw [h]
        exact (range_map_add_succ attempt (a0 - (attempt + 1) + 1)).symm
      · simp only [List.singleton_append, sleepsOf_cons_att, sleepsOf_cons_sleep, e3]
        have h : a0 - attempt = (a0 - (attempt + 1)) + 1 := by omega
        rw [h]
        exact (range_map_pow_succ attempt (a0 - (attempt + 1))).symm

/-- **C4** (amended) — retry loop.  (1) If every attempt `1..retries`
throws, the loop performs exactly the attempts `1, …, retries` in order,
sleeps `2 ^ attempt * 1000` ms after each failed attempt except the
last, and returns — never throws, the embedding is a total function — a
failure result whose `error` is the last error's message run through
JavaScript `||` against the fallback (`lastError?.message || "Unknown
error after all retries"`, so an empty message is replaced by the
fallback).  (2) If attempts `1..a₀-1` throw and attempt `a₀ ≤ retries`
succeeds with `r`, the loop returns `r` immediately after attempts
`1, …, a₀` with a backoff sleep after each of the `a₀ - 1` failures
(lines 259–291). -/
theorem retry_loop_behavior :
    (∀ (attemptFn : Nat → Except String DownloadResult × List AEv)
       (retries : Nat) (E : Nat → String) (T : Nat → List AEv)
       (pid : String) (d : ImageData), 1 ≤ retries →
       (∀ a, 1 ≤ a → a ≤ retries → attemptFn a = (.error (E a), T a)) →
       (downloadImageWithContext attemptFn retries pid d).1 =
         { success := false, photoId := pid,
           error := some (jsOrDflt (some (E retries)) "Unknown error after all retries"),
           author := some (d.image_author.getD "") } ∧
       attemptsOf (downloadImageWithContext attemptFn retries pid d).2 =
         (List.range retries).map (fun k => 1 + k) ∧
       sleepsOf (downloadImageWithContext attemptFn retries pid d).2 =
         (List.range (retries - 1)).map (fun k => 2 ^ (1 + k) * 1000)) ∧
    (∀ (attemptFn : Nat → Except String DownloadResult × List AEv)
       (retries : Nat) (E : Nat → String) (T : Nat → List AEv)
       (pid : String) (d : ImageData) (a0 : Nat) (r : DownloadResult) (tr : List AEv),
       1 ≤ a0 → a0 ≤ retries →
       (∀ a, 1 ≤ a → a < a0 → attemptFn a = (.error (E a), T a)) →
       attemptFn a0 = (.ok r, tr) →
       (downloadImageWithContext attemptFn retries pid d).1 = r ∧
       attemptsOf (downloadImageWithContext attemptFn retries pid d).2 =
         (List.range a0).map (fun k => 1 + k) ∧
       sleepsOf (downloadImageWithContext attemptFn retries pid d).2 =
         (List.range (a0 - 1)).map (fun k => 2 ^ (1 + k) * 1000)) := by
  constructor
  · intro attemptFn retries E T pid d hret hfail
    obtain ⟨e1, e2, e3⟩ := retryGo_fail_spec attemptFn pid d E T retries 1 none
      (by omega) (fun a h1 h2 => hfail a h1 (by omega))
    unfold downloadImageWithContext
    refine ⟨?_, e2, e3⟩
    rw [e1]
    have h : 1 + retries - 1 = retries := by omega
    rw [h]
  · intro attemptFn retries E T pid d a0 r tr h1 h2 hfail hok
    obtain ⟨e1, e2, e3⟩ := retryGo_succ_spec attemptFn pid d E T retries 1 none a0 r tr
      h1 (by omega) hfail hok
    unfold downloadImageWithContext
    refine ⟨e1, ?_, ?_⟩
    · rw [e2]
      have h : a0 - 1 + 1 = a0 := by omega
      rw [h]
    · rw [e3]

/-- Attempt oracle of the C4 counterexample: every attempt throws an
`Error` whose message is the empty string. -/
def c4CexFn : Nat → Except String DownloadResult × List AEv := fun _ => (.error "", [])

/-- C4 counterexample: when every attempt throws an error with an empty
message, the final failure result does *not* carry the last error's
message (the empty string); `lastError?.message || …` substitutes the
fallback text instead. -/
theorem retry_lastError_empty_counterexample :
    c4CexFn 1 = (.error "", []) ∧
    (downloadImageWithContext c4CexFn 1 "p" {}).1.success = false ∧
    (downloadImageWithContext c4CexFn 1 "p" {}).1.error =
      some "Unknown error after all retries" ∧
    (downloadImageWithContext c4CexFn 1 "p" {}).1.error ≠ some "" := by
  refine ⟨rfl, rfl, rfl, ?_⟩
  intro h
  injection h with h
  exact absurd h (by decide)

/-- Attempt oracle of the C4 witness, part 1: always throws. -/
def c4FailFn : Nat → Except String DownloadResult × List AEv :=
  fun a => (.error (toString a), [])

/-- Success result of the C4 witness, part 2. -/
def c4OkResult : DownloadResult := { success := true, photoId := "p" }

/-- Attempt oracle of the C4 witness, part 2: fails once, succeeds on
attempt 2. -/
def c4OkFn : Nat → Except String DownloadResult × List AEv :=
  fun a => if a = 2 then (.ok c4OkResult, []) else (.error "boom", [])

theorem retry_loop_behavior_witness :
    ((downloadImageWithContext c4FailFn 3 "p" {}).1 =
       { success := false, photoId := "p",
         error := some (jsOrDflt (some (toString 3)) "Unknown error after all retries"),
         author := some (({} : ImageData).image_author.getD "") } ∧
     attemptsOf (downloadImageWithContext c4FailFn 3 "p" {}).2 =
       (List.range 3).map (fun k => 1 + k) ∧
     sleepsOf (downloadImageWithContext c4FailFn 3 "p" {}).2 =
       (List.range (3 - 1)).map (fun k => 2 ^ (1 + k) * 1000)) ∧
    ((downloadImageWithContext c4OkFn 3 "p" {}).1 = c4OkResult ∧
     attemptsOf (downloadImageWithContext c4OkFn 3 "p" {}).2 =
       (List.range 2).map (fun k => 1 + k) ∧
     sleepsOf (downloadImageWithContext c4OkFn 3 "p" {}).2 =
       (List.range (2 - 1)).map (fun k => 2 ^ (1 + k) * 1000)) :=
  ⟨retry_loop_behavior.1 c4FailFn 3 (fun a => toString a) (fun _ => []) "p" {}
     (by omega) (fun a _ _ => rfl),
   retry_loop_behavior.2 c4OkFn 3 (fun _ => "boom") (fun _ => []) "p" {} 2 c4OkResult []
     (by omega) (by omega)
     (fun a ha1 ha2 => by
       have ha : a = 1 := by omega
       subst ha
       rfl)
     rfl⟩

/-! ## Claims C9, C5, C6, C7 -/

/-- **C9** — idempotent skip.  When the persistence layer reports the
file as existing, the single concurrent attempt returns `success=true`,
`skipped=true` with the existing file's size and filepath, and its trace
is just the existence probe: in particular no fetch of the image
resource is performed on that call (lines 304–336). -/
theorem skip_existing_branch (dryRun : Bool) (env : AttemptEnv) (pid : String)
    (d : ImageData) (hex : env.existing.exists' = true) :
    attemptDownloadWithContext dryRun env pid d =
      (.ok { success := true, photoId := pid,
             filepath := some (env.existing.filepath.getD ""),
             filename := some (basename (env.existing.filepath.getD "")),
             size := some (env.existing.size.getD 0),
             skipped := true,
             author := some (d.image_author.getD "") }, [.checkExists]) ∧
    (attemptDownloadWithContext dryRun env pid d).2.countP AEv.isFetch = 0 ∧
    (attemptDownloadWithContext dryRun env pid d).2.countP AEv.isExtract = 0 := by
  have h : attemptDownloadWithContext dryRun env pid d =
      (.ok { success := true, photoId := pid,
             filepath := some (env.existing.filepath.getD ""),
             filename := some (basename (env.existing.filepath.getD "")),
             size := some (env.existing.size.getD 0),
             skipped := true,
             author := some (d.image_author.getD "") }, [.checkExists]) := by
    unfold attemptDownloadWithContext
    rw [if_pos hex]
  exact ⟨h, by rw [h]; rfl, by rw [h]; rfl⟩

/-- Oracle environment of the C9 witness: the file already exists. -/
def c9Env : AttemptEnv :=
  { existing := { exists' := true, filepath := some "downloads/alice/img1.jpg",
                  size := some 2048 },
    extractO := .error "unused" }

theorem skip_existing_branch_witness :
    attemptDownloadWithContext false c9Env "alice/img1"
        { image_author := some "Alice" } =
      (.ok { success := true, photoId := "alice/img1",
             filepath := some (c9Env.existing.filepath.getD ""),
             filename := some (basename (c9Env.existing.filepath.getD "")),
             size := some (c9Env.existing.size.getD 0),
             skipped := true,
             author := some (({ image_author := some "Alice" } :
               ImageData).image_author.getD "") }, [.checkExists]) ∧
    (attemptDownloadWithContext false c9Env "alice/img1"
      { image_author := some "Alice" }).2.countP AEv.isFetch = 0 ∧
    (attemptDownloadWithContext false c9Env "alice/img1"
      { image_author := some "Alice" }).2.countP AEv.isExtract = 0 :=
  skip_existing_branch false c9Env "alice/img1" { image_author := some "Alice" } rfl

/-- Oracle environment of the C5 failing input: the file exists and
extraction would succeed if it were attempted. -/
def c5Env : AttemptEnv :=
  { existing := { exists' := true, filepath := some "downloads/user/abc.jpg",
                  size := some 123 },
    extractO := .ok { directImageUrl := "https://img.example/abc.jpg" } }

/-- **C5** — divergence between the two attempt implementations on an
existing file.  `ConcurrentDownloadService.attemptDownloadWithContext`
returns the skipped result *without* running the metadata extraction
step (its trace has no `extractMeta` event), while the sequential
`DownloadService.attemptDownload` still runs extraction for the same
input (one `extractMeta` event), as the spec's product requirement
demands.  This exhibits the code bug behind claim C5. -/
theorem skip_metadata_divergence :
    ((attemptDownloadWithContext false c5Env "user/abc" {}).1 =
       .ok { success := true, photoId := "user/abc",
             filepath := some (c5Env.existing.filepath.getD ""),
             filename := some (basename (c5Env.existing.filepath.getD "")),
             size := some (c5Env.existing.size.getD 0),
             skipped := true, author := some "" } ∧
     (attemptDownloadWithContext false c5Env "user/abc" {}).2.countP AEv.isExtract = 0) ∧
    ((attemptDownload false c5Env "user/abc" {}).1 =
       .ok { success := true, photoId := "user/abc",
             filepath := some (c5Env.existing.filepath.getD ""),
             filename := some (basename (c5Env.existing.filepath.getD "")),
             size := some (c5Env.existing.size.getD 0),
             skipped := true, author := some "" } ∧
     (attemptDownload false c5Env "user/abc" {}).2.countP AEv.isExtract = 1) :=
  ⟨⟨rfl, rfl⟩, ⟨rfl, rfl⟩⟩

/-- **C6** — context release.  In every execution of the per-item task:
if `getContext` succeeds, `releaseContext` is called exactly once before
the task's result is produced — also when the body throws after the
lease (`postErr`) — and if `getContext` throws, no release happens
(`finally` guard `if (context)`); the lease count matches
(lines 172–247). -/
theorem context_release (ctxO : Except String Unit) (postErr : Option String)
    (attemptFn : Nat → Except String DownloadResult × List AEv) (retries : Nat)
    (entry : ImageEntry) :
    (downloadSingleImage ctxO postErr attemptFn retries entry).2.countP SEv.isRelease =
      (match ctxO with | .ok _ => 1 | .error _ => 0) ∧
    (downloadSingleImage ctxO postErr attemptFn retries entry).2.countP SEv.isGet =
      (match ctxO with | .ok _ => 1 | .error _ => 0) := by
  cases ctxO with
  | error e => exact ⟨rfl, rfl⟩
  | ok u =>
    cases postErr with
    | none =>
      refine ⟨?_, ?_⟩ <;>
        simp [downloadSingleImage, List.countP_cons, SEv.isRelease, SEv.isGet]
    | some e =>
      refine ⟨?_, ?_⟩ <;>
        simp [downloadSingleImage, List.countP_cons, SEv.isRelease, SEv.isGet]

/-- **C7** — failure isolation in `processBatch`.  The per-item task is
a total function (nothing below the task boundary escapes as an
exception), so `processBatch` always yields one `DownloadResult` per
batch item; and for every item whose `getContext` throws (pool
exhausted or uninitialized), the corresponding slot is a
`success=false` result carrying that error message
(lines 142–161, 218–234; BrowserPool lines 125–152). -/
theorem batch_failure_isolation (ctxOs : Nat → Except String Unit)
    (postErrs : Nat → Option String) (dryRun : Bool)
    (envs : Nat → Nat → AttemptEnv) (retries : Nat) (items : List ImageEntry)
    (k : Nat) (es : List SemEvent) (d : DownloadResult) (rs : List DownloadResult)
    (h : processBatchT (taskOutcome ctxOs postErrs dryRun envs retries items)
      k items.length es d = some rs) :
    rs.length = items.length ∧
    ∀ i e, i < items.length → ctxOs i = .error e →
      (rs.getD i dfltResult).success = false ∧
      (rs.getD i dfltResult).error = some e := by
  have hrs := processBatchT_eq h
  constructor
  · rw [hrs]; simp
  · intro i e hi hctx
    rw [hrs, getD_map_range _ hi]
    unfold taskOutcome
    rw [hctx]
    exact ⟨rfl, rfl⟩

/-- Items of the C7 witness. -/
def c7Items : List ImageEntry := [("a/1", {}), ("b/2", {})]

/-- Context oracles of the C7 witness: item 0's `getContext` throws the
pool-exhaustion error, item 1's succeeds. -/
def c7CtxOs : Nat → Except String Unit :=
  fun i => if i = 0 then
    .error "No browser contexts available and pool is at capacity" else .ok ()

/-- Per-attempt environments of the C7 witness: the file exists, so the
leased item is skipped. -/
def c7Envs : Nat → Nat → AttemptEnv :=
  fun _ _ => { existing := { exists' := true, filepath := some "f", size := some 1 },
               extractO := .error "unused" }

/-- Batch results of the C7 witness. -/
def c7Rs : List DownloadResult :=
  [{ success := false, photoId := "a/1",
     error := some "No browser contexts available and pool is at capacity",
     author := some "" },
   { success := true, photoId := "b/2", filepath := some "f",
     filename := some (basename "f"), size := some 1, skipped := true,
     author := some "" }]

theorem batch_failure_isolation_witness :
    c7Rs.length = c7Items.length ∧
    ∀ i e, i < c7Items.length → c7CtxOs i = .error e →
      (c7Rs.getD i dfltResult).success = false ∧
      (c7Rs.getD i dfltResult).error = some e :=
  batch_failure_isolation c7CtxOs (fun _ => none) false c7Envs 3 c7Items 2
    (seqSchedule 2) dfltResult c7Rs rfl

/-- Items of the C1 witness. -/
def c1Items : List ImageEntry := [("alice/a1", {}), ("bob/b2", {})]

/-- Per-attempt environments of the C1 witness (dry-run mode, so the
full download path is never taken). -/
def c1Envs : Nat → Nat → AttemptEnv :=
  fun _ _ => { existing := { exists' := false }, extractO := .error "unused" }

/-- Results of the C1 witness. -/
def c1Rs : List DownloadResult :=
  [{ success := true, photoId := "alice/a1", dryRun := true, author := some "" },
   { success := true, photoId := "bob/b2", dryRun := true, author := some "" }]

theorem result_order_witness :
    c1Rs.length = c1Items.length ∧
    ∀ i, i < c1Items.length →
      (c1Rs.getD i dfltResult).photoId = (c1Items.getD i dfltEntry).1 :=
  result_order (fun _ => .ok ()) (fun _ => none) true c1Envs 3 c1Items
    (some 2) (some 1) (some 100) (some true) (fun _ => seqSchedule 1) dfltResult
    c1Rs [100] rfl

/-! ## BrowserPool (claim C8)

Embedding of `src/browser/BrowserPool.ts`.  Contexts are identified by a
ghost id `cid` (TypeScript compares object identity); `now` is the
caller-supplied clock, `launchOk`/`createOk` are oracles for the
underlying browser-engine calls (a failed create throws out of
`getContext` but is swallowed with a warning inside `replaceContext`). -/

/-- `maxContextUses` (line 67). -/
def maxContextUses : Nat := 100

/-- `contextLifetime` in ms (line 66). -/
def contextLifetime : Nat := 300000

/-- One `PooledContext`. -/
structure PCtx where
  cid : Nat
  inUse : Bool
  createdAt : Nat
  lastUsedAt : Nat
  useCount : Nat
  deriving Repr, DecidableEq

/-- State of one `BrowserPool` (`browser` null-ness as `initialized`). -/
structure PoolState where
  initialized : Bool
  pool : List PCtx
  maxPoolSize : Nat
  nextId : Nat
  deriving Repr, DecidableEq

/-- A freshly constructed pool (`maxPoolSize = maxConcurrency || 3`). -/
def mkPool (maxPoolSize : Nat) : PoolState :=
  { initialized := false, pool := [], maxPoolSize := maxPoolSize, nextId := 0 }

/-- `createContext` (lines 218–240): push a fresh context (no size
check in this method itself). -/
def createContext (now : Nat) (s : PoolState) : PoolState :=
  { s with
    pool := s.pool ++
      [{ cid := s.nextId, inUse := false, createdAt := now, lastUsedAt := now,
         useCount := 0 }],
    nextId := s.nextId + 1 }

/-- `replaceContext` (lines 250–273): remove the entry (no-op when not
pooled), then create a replacement only when below `maxPoolSize` and
the underlying create succeeds (a create failure is only warned). -/
def replaceContext (now : Nat) (createOk : Bool) (cid : Nat) (s : PoolState) :
    PoolState :=
  if s.pool.any (fun pc => pc.cid == cid) then
    let removed : PoolState := { s with pool := s.pool.filter (fun pc => pc.cid != cid) }
    if removed.pool.length < removed.maxPoolSize ∧ createOk then createContext now removed
    else removed
  else s

/-- `cleanupStaleContexts` (lines 282–294): replace every idle context
that is over age or over its use budget. -/
def cleanupStaleContexts (now : Nat) (createOk : Bool) (s : PoolState) : PoolState :=
  let stale := s.pool.filter (fun pc =>
    !pc.inUse && (decide (contextLifetime < now - pc.createdAt) ||
      decide (maxContextUses ≤ pc.useCount)))
  stale.foldl (fun st pc => replaceContext now createOk pc.cid st) s

/-- Mark the chosen context leased (`inUse := true`, `lastUsedAt`,
`useCount++`, lines 154–157). -/
def markUsed (now : Nat) (cid : Nat) (s : PoolState) : PoolState :=
  { s with pool := s.pool.map (fun pc =>
      if pc.cid == cid then
        { pc with inUse := true, lastUsedAt := now, useCount := pc.useCount + 1 }
      else pc) }

/-- `getContext` (lines 125–164): uninitialized pool throws; otherwise
run the stale-cleanup pass, pick an idle context, grow the pool when
allowed (a create failure propagates), and fail with the capacity error
when nothing is available — the LRU re-filter can never find a context
the first `find?` missed. -/
def getContext (now : Nat) (createOk : Bool) (s : PoolState) :
    PoolState × Except String Nat :=
  if !s.initialized then
    (s, .error "Browser pool not initialized. Call initialize() first.")
  else
    let s1 := cleanupStaleContexts now createOk s
    match s1.pool.find? (fun pc => !pc.inUse) with
    | some pc => (markUsed now pc.cid s1, .ok pc.cid)
    | none =>
      if s1.pool.length < s1.maxPoolSize then
        if createOk then (markUsed now s1.nextId (createContext now s1), .ok s1.nextId)
        else (s1, .error "Failed to create context")
      else (s1, .error "No browser contexts available and pool is at capacity")

/-- `releaseContext` (lines 179–209): unknown context is a warned
no-op; otherwise clear `inUse` and replace the context when it hit its
use budget. -/
def releaseContext (now : Nat) (createOk : Bool) (cid : Nat) (s : PoolState) :
    PoolState :=
  match s.pool.find? (fun pc => pc.cid == cid) with
  | none => s
  | some pc =>
    let s1 : PoolState := { s with pool := s.pool.map (fun q =>
      if q.cid == cid then { q with inUse := false } else q) }
    if maxContextUses ≤ pc.useCount then replaceContext now createOk cid s1 else s1

/-- `initialize` (lines 96–109): launch the engine (failure propagates
with the state unchanged), then pre-create one context
unconditionally — no size check. -/
def initializePool (now : Nat) (launchOk createOk : Bool) (s : PoolState) : PoolState :=
  if launchOk then
    let s1 : PoolState := { s with initialized := true }
    if createOk then createContext now s1 else s1
  else s

/-- One public `BrowserPool` operation. -/
inductive PoolOp where
  | init (now : Nat) (launchOk createOk : Bool)
  | get (now : Nat) (createOk : Bool)
  | release (now : Nat) (createOk : Bool) (cid : Nat)
  | cleanup
  deriving Repr, DecidableEq

def poolStep (s : PoolState) : PoolOp → PoolState
  | .init now launchOk createOk => initializePool now launchOk createOk s
  | .get now createOk => (getContext now createOk s).1
  | .release now createOk cid => releaseContext now createOk cid s
  | .cleanup => { s with pool := [], initialized := false }

def poolRun (s : PoolState) : List PoolOp → PoolState
  | [] => s
  | op :: ops => poolRun (poolStep s op) ops

/-- Number of `initialize` calls in an operation sequence. -/
def countInit : List PoolOp → Nat
  | [] => 0
  | .init _ _ _ :: ops => countInit ops + 1
  | _ :: ops => countInit ops

/-- Number of leased (`inUse = true`) contexts. -/
def inUseCount (s : PoolState) : Nat := s.pool.countP (fun pc => pc.inUse)

/-! ## Pool-bound lemmas -/

theorem createContext_max (now : Nat) (s : PoolState) :
    (createContext now s).maxPoolSize = s.maxPoolSize := rfl

theorem createContext_len (now : Nat) (s : PoolState) :
    (createContext now s).pool.length = s.pool.length + 1 := by
  simp [createContext]

theorem replaceContext_max (now : Nat) (c : Bool) (cid : Nat) (s : PoolState) :
    (replaceContext now c cid s).maxPoolSize = s.maxPoolSize := by
  simp only [replaceContext]
  split
  · split <;> rfl
  · rfl

theorem replaceContext_len (now : Nat) (c : Bool) (cid : Nat) (s : PoolState)
    (h : s.pool.length ≤ s.maxPoolSize) :
    (replaceContext now c cid s).pool.length ≤ s.maxPoolSize := by
  simp only [replaceContext]
  split
  · split
    · next hcond =>
      rw [createContext_len]
      exact hcond.1
    · exact le_trans (List.length_filter_le _ _) h
  · exact h

theorem foldl_replace_max (now : Nat) (c : Bool) :
    ∀ (l : List PCtx) (s : PoolState),
      (l.foldl (fun st pc => replaceContext now c pc.cid st) s).maxPoolSize =
        s.maxPoolSize := by
  intro l
  induction l with
  | nil => intro s; rfl
  | cons pc l ih =>
    intro s
    rw [List.foldl_cons, ih, replaceContext_max]

theorem foldl_replace_len (now : Nat) (c : Bool) :
    ∀ (l : List PCtx) (s : PoolState), s.pool.length ≤ s.maxPoolSize →
      (l.foldl (fun st pc => replaceContext now c pc.cid st) s).pool.length ≤
        (l.foldl (fun st pc => replaceContext now c pc.cid st) s).maxPoolSize := by
  intro l
  induction l with
  | nil => intro s h; exact h
  | cons pc l ih =>
    intro s h
    rw [List.foldl_cons]
    apply ih
    rw [replaceContext_max]
    exact replaceContext_len now c pc.cid s h

theorem markUsed_len (now cid : Nat) (s : PoolState) :
    (markUsed now cid s).pool.length = s.pool.length := by
  simp [markUsed]

theorem markUsed_max (now cid : Nat) (s : PoolState) :
    (markUsed now cid s).maxPoolSize = s.maxPoolSize := rfl

theorem cleanupStale_max (now : Nat) (c : Bool) (s : PoolState) :
    (cleanupStaleContexts now c s).maxPoolSize = s.maxPoolSize := by
  unfold cleanupStaleContexts
  exact foldl_replace_max now c _ s

theorem cleanupStale_len (now : Nat) (c : Bool) (s : PoolState)
    (h : s.pool.length ≤ s.maxPoolSize) :
    (cleanupStaleContexts now c s).pool.length ≤ s.maxPoolSize := by
  unfold cleanupStaleContexts
  have := foldl_replace_len now c
    (s.pool.filter (fun pc =>
      !pc.inUse && (decide (contextLifetime < now - pc.createdAt) ||
        decide (maxContextUses ≤ pc.useCount)))) s h
  rwa [foldl_replace_max] at this

theorem getContext_max (now : Nat) (c : Bool) (s : PoolState) :
    ((getContext now c s).1).maxPoolSize = s.maxPoolSize := by
  simp only [getContext]
  split
  · rfl
  · split
    · rw [markUsed_max, cleanupStale_max]
    · split
      · split
        · rw [markUsed_max, createContext_max, cleanupStale_max]
        · rw [cleanupStale_max]
      · rw [cleanupStale_max]

theorem getContext_len (now : Nat) (c : Bool) (s : PoolState)
    (h : s.pool.length ≤ s.maxPoolSize) :
    ((getContext now c s).1).pool.length ≤ s.maxPoolSize := by
  simp only [getContext]
  split
  · exact h
  · have h1 := cleanupStale_len now c s h
    have hm := cleanupStale_max now c s
    split
    · rw [markUsed_len]
      exact h1
    · split
      · next hlt =>
        split
        · rw [markUsed_len, createContext_len]
          rw [hm] at hlt
          omega
        · exact h1
      · exact h1

theorem releaseContext_max (now : Nat) (c : Bool) (cid : Nat) (s : PoolState) :
    (releaseContext now c cid s).maxPoolSize = s.maxPoolSize := by
  simp only [releaseContext]
  split
  · rfl
  · split
    · rw [replaceContext_max]
    · rfl

theorem releaseContext_len (now : Nat) (c : Bool) (cid : Nat) (s : PoolState)
    (h : s.pool.length ≤ s.maxPoolSize) :
    (releaseContext now c cid s).pool.length ≤ s.maxPoolSize := by
  simp only [releaseContext]
  split
  · exact h
  · have hlen : (s.pool.map (fun q =>
        if q.cid == cid then { q with inUse := false } else q)).length =
        s.pool.length := by simp
    split
    · have := replaceContext_len now c cid
        ({ s with pool := s.pool.map (fun q =>
          if q.cid == cid then { q with inUse := false } else q) })
        (by dsimp only; rw [hlen]; exact h)
      exact this
    · dsimp only
      rw [hlen]
      exact h

theorem poolStep_max (s : PoolState) (op : PoolOp) :
    (poolStep s op).maxPoolSize = s.maxPoolSize := by
  cases op with
  | init now l c =>
    cases l <;> cases c <;> rfl
  | get now c => exact getContext_max now c s
  | release now c cid => exact releaseContext_max now c cid s
  | cleanup => rfl

theorem poolRun_max (ops : List PoolOp) : ∀ s : PoolState,
    (poolRun s ops).maxPoolSize = s.maxPoolSize := by
  induction ops with
  | nil => intro s; rfl
  | cons op ops ih =>
    intro s
    rw [poolRun, ih, poolStep_max]

/-- Every operation except `initialize` preserves the pool bound. -/
theorem poolStep_len (s : PoolState) (op : PoolOp) (hop : ∀ n l c, op ≠ .init n l c)
    (h : s.pool.length ≤ s.maxPoolSize) :
    (poolStep s op).pool.length ≤ (poolStep s op).maxPoolSize := by
  rw [poolStep_max]
  cases op with
  | init now l c => exact absurd rfl (hop now l c)
  | get now c => exact getContext_len now c s h
  | release now c cid => exact releaseContext_len now c cid s h
  | cleanup => simp [poolStep]

/-- Before the pool is initialized, no operation but `initialize`
changes the state: `getContext` throws, `releaseContext` finds nothing,
`cleanup` clears an already-empty pool. -/
theorem poolStep_uninit (s : PoolState) (op : PoolOp) (hop : ∀ n l c, op ≠ .init n l c)
    (hini : s.initialized = false) (hpool : s.pool = []) :
    (poolStep s op).initialized = false ∧ (poolStep s op).pool = [] := by
  cases op with
  | init now l c => exact absurd rfl (hop now l c)
  | get now c =>
    have : (getContext now c s).1 = s := by
      unfold getContext
      rw [if_pos (by rw [hini]; rfl)]
    rw [poolStep, this]
    exact ⟨hini, hpool⟩
  | release now c cid =>
    have : releaseContext now c cid s = s := by
      unfold releaseContext
      rw [hpool]
      rfl
    rw [poolStep, this]
    exact ⟨hini, hpool⟩
  | cleanup => exact ⟨rfl, rfl⟩

theorem poolRun_inv : ∀ (ops : List PoolOp) (s : PoolState),
    1 ≤ s.maxPoolSize →
    ((s.initialized = false ∧ s.pool = [] ∧ countInit ops ≤ 1) ∨
      (s.pool.length ≤ s.maxPoolSize ∧ countInit ops = 0)) →
    (poolRun s ops).pool.length ≤ (poolRun s ops).maxPoolSize := by
  intro ops
  induction ops with
  | nil =>
    intro s hmax hcase
    rcases hcase with ⟨_, hpool, _⟩ | ⟨hlen, _⟩
    · rw [poolRun, hpool]
      simp
    · exact hlen
  | cons op ops ih =>
    intro s hmax hcase
    rw [poolRun]
    have hmax' : 1 ≤ (poolStep s op).maxPoolSize := by rw [poolStep_max]; exact hmax
    rcases hcase with ⟨hini, hpool, hcnt⟩ | ⟨hlen, hcnt⟩
    · by_cases hop : ∀ n l c, op ≠ PoolOp.init n l c
      · -- not an initialize: the uninitialized empty pool is unchanged
        obtain ⟨h1, h2⟩ := poolStep_uninit s op hop hini hpool
        apply ih (poolStep s op) hmax'
        left
        refine ⟨h1, h2, ?_⟩
        calc countInit ops ≤ countInit (op :: ops) := by
              cases op with
              | init now l c => exact absurd rfl (hop now l c)
              | get now c => exact le_refl _
              | release now c cid => exact le_refl _
              | cleanup => exact le_refl _
        _ ≤ 1 := hcnt
      · -- the single initialize: afterwards the bound holds and no
        -- further initialize remains
        push_neg at hop
        obtain ⟨n, l, c, hop⟩ := hop
        subst hop
        apply ih (poolStep s (.init n l c)) hmax'
        right
        constructor
        · cases l with
          | false =>
            show s.pool.length ≤ _
            rw [poolStep_max, hpool]
            simp
          | true =>
            cases c with
            | false =>
              show ({ s with initialized := true } : PoolState).pool.length ≤ _
              rw [poolStep_max]
              dsimp only
              rw [hpool]
              simp
            | true =>
              show (createContext n { s with initialized := true }).pool.length ≤ _
              rw [poolStep_max, createContext_len]
              dsimp only
              rw [hpool]
              simpa using hmax
        · have : countInit (PoolOp.init n l c :: ops) = countInit ops + 1 := rfl
          omega
    · -- bound already holds; no initialize may remain
      have hop : ∀ n l c, op ≠ PoolOp.init n l c := by
        intro n l c heq
        subst heq
        simp [countInit] at hcnt
      apply ih (poolStep s op) hmax'
      right
      refine ⟨poolStep_len s op hop hlen, ?_⟩
      cases op with
      | init now l c => exact absurd rfl (hop now l c)
      | get now c => exact hcnt
      | release now c cid => exact hcnt
      | cleanup => exact hcnt

/-- C8 counterexample: the claim quantifies over *every* sequence of
pool operations, but `initialize` pushes a context unconditionally, so
calling it twice on a pool with `maxPoolSize = 1` grows the pool to 2
contexts — `size(pool) ≤ maxPoolSize` is violated. -/
theorem pool_bound_counterexample :
    (poolRun (mkPool 1) [.init 0 true true, .init 0 true true]).pool.length = 2 ∧
    (poolRun (mkPool 1) [.init 0 true true, .init 0 true true]).maxPoolSize = 1 ∧
    ¬((poolRun (mkPool 1) [.init 0 true true, .init 0 true true]).pool.length ≤
      (poolRun (mkPool 1) [.init 0 true true, .init 0 true true]).maxPoolSize) := by
  refine ⟨rfl, rfl, ?_⟩
  decide

/-- **C8** (amended) — pool bound.  For every sequence of `BrowserPool`
operations in which `initialize` is invoked at most once (its intended
once-per-lifetime use), `size(pool) ≤ maxPoolSize` holds throughout and
hence the number of `inUse = true` entries never exceeds `maxPoolSize`:
`getContext` growth and `replaceContext` replacement check the bound
before creating, and every other operation only shrinks or relabels the
pool.  (`initialize` itself creates unconditionally, which is why
repeating it breaks the bound — see the counterexample.) -/
theorem pool_bound (maxPS : Nat) (hmax : 1 ≤ maxPS) (ops : List PoolOp)
    (hinit : countInit ops ≤ 1) :
    (poolRun (mkPool maxPS) ops).pool.length ≤ maxPS ∧
    inUseCount (poolRun (mkPool maxPS) ops) ≤ maxPS := by
  have h := poolRun_inv ops (mkPool maxPS) hmax (.inl ⟨rfl, rfl, hinit⟩)
  rw [poolRun_max] at h
  exact ⟨h, le_trans (List.countP_le_length _) h⟩

theorem pool_bound_witness :
    (poolRun (mkPool 2) [.init 0 true true, .get 1 true, .get 2 true,
      .release 3 true 0, .get 4 true, .cleanup]).pool.length ≤ 2 ∧
    inUseCount (poolRun (mkPool 2) [.init 0 true true, .get 1 true, .get 2 true,
      .release 3 true 0, .get 4 true, .cleanup]) ≤ 2 :=
  pool_bound 2 (by decide)
    [.init 0 true true, .get 1 true, .get 2 true, .release 3 true 0,
     .get 4 true, .cleanup] (by decide)

end VscoDownloader
